import Mathlib

/-!
Verification of the fourbyte server core (room lifecycle and broadcast engine).

Shallow embedding of `server/src/roomManager.js`, `server/src/rateLimiter.js`,
`server/src/config.js` and the socket event handlers (`server/src/socket.js`).

Modelling conventions:
* JavaScript `Map` objects are embedded as association lists `List (String × V)`
  with JS `Map` semantics: `set` updates an existing key in place or appends,
  `delete` removes the entry, `get`/`has` find the first matching key.  All maps
  reachable through the embedded operations have pairwise distinct keys.
* `Math.random()` results are oracle parameters (a rational in `[0,1)` or a
  stream of such rationals); the surrounding arithmetic (`Math.floor(1000 +
  r * 9000)`) is embedded explicitly.
* `Date.now()` timestamps are `Int` parameters passed to each operation.
* JS exceptions are embedded as `Except String` results; operations that can
  throw return the (unchanged, because every `throw` in the source happens
  before any mutation) state next to the error.
* `setTimeout`/`clearTimeout` cleanup timers are embedded as the set of room
  ids having a pending timer (`cleanupTimers`); scheduling with a delay `≤ 0`
  destroys the room immediately, exactly as the source does.
* Values that may be any JS value (handler payload fields) are embedded as
  `JSVal`, distinguishing strings from non-string values; a non-string value
  only matters through its truthiness.
-/

namespace Fourbyte

/-! ## Association lists with JavaScript `Map` semantics -/

/-- First value stored under key `key`, i.e. JS `map.get(key)`. -/
def lookupA {α : Type} : List (String × α) → String → Option α
  | [], _ => none
  | (k, v) :: rest, key => if k = key then some v else lookupA rest key

/-- JS `map.set(key, v)`: update an existing entry in place, else append. -/
def insertA {α : Type} : List (String × α) → String → α → List (String × α)
  | [], key, v => [(key, v)]
  | (k, w) :: rest, key, v =>
    if k = key then (key, v) :: rest else (k, w) :: insertA rest key v

/-- JS `map.delete(key)` (on maps with distinct keys removing every entry
with the key equals removing the one entry). -/
def eraseA {α : Type} : List (String × α) → String → List (String × α)
  | [], _ => []
  | (k0, w) :: rest, key =>
    if k0 = key then eraseA rest key else (k0, w) :: eraseA rest key

/-- JS `map.has(key)`. -/
def hasA {α : Type} (m : List (String × α)) (key : String) : Bool :=
  (lookupA m key).isSome

/-- The keys of the map are pairwise distinct. -/
def keysNodup {α : Type} (m : List (String × α)) : Prop :=
  (m.map Prod.fst).Nodup

theorem lookupA_insertA_self {α : Type} (m : List (String × α)) (k : String) (v : α) :
    lookupA (insertA m k v) k = some v := by
  induction m with
  | nil => simp [insertA, lookupA]
  | cons kv rest ih =>
    obtain ⟨k', w⟩ := kv
    by_cases h : k' = k
    · simp [insertA, lookupA, h]
    · simp [insertA, lookupA, h, ih]

theorem lookupA_insertA_ne {α : Type} (m : List (String × α)) (k k' : String) (v : α)
    (h : k' ≠ k) : lookupA (insertA m k v) k' = lookupA m k' := by
  induction m with
  | nil => simp [insertA, lookupA, Ne.symm h]
  | cons kv rest ih =>
    obtain ⟨k0, w⟩ := kv
    by_cases h0 : k0 = k
    · subst h0
      simp [insertA, lookupA, Ne.symm h]
    · simp [insertA, lookupA, h0, ih]

theorem lookupA_eraseA_self {α : Type} (m : List (String × α)) (k : String) :
    lookupA (eraseA m k) k = none := by
  induction m with
  | nil => simp [eraseA, lookupA]
  | cons kv rest ih =>
    obtain ⟨k0, w⟩ := kv
    by_cases h0 : k0 = k
    · simpa [eraseA, h0] using ih
    · simpa [eraseA, lookupA, h0] using ih

theorem lookupA_eraseA_ne {α : Type} (m : List (String × α)) (k k' : String)
    (h : k' ≠ k) : lookupA (eraseA m k) k' = lookupA m k' := by
  induction m with
  | nil => simp [eraseA, lookupA]
  | cons kv rest ih =>
    obtain ⟨k0, w⟩ := kv
    by_cases h0 : k0 = k
    · subst h0
      simp [eraseA, lookupA, Ne.symm h, ih]
    · simp [eraseA, lookupA, h0, ih]

theorem keysNodup_nil {α : Type} : keysNodup ([] : List (String × α)) := by
  simp [keysNodup]

theorem lookupA_eq_none_of_not_mem_keys {α : Type} (m : List (String × α)) (k : String)
    (h : k ∉ m.map Prod.fst) : lookupA m k = none := by
  induction m with
  | nil => simp [lookupA]
  | cons kv rest ih =>
    obtain ⟨k0, w⟩ := kv
    simp only [List.map_cons, List.mem_cons] at h
    push_neg at h
    simp [lookupA, Ne.symm h.1, ih h.2]

theorem mem_keys_of_lookupA_isSome {α : Type} (m : List (String × α)) (k : String)
    (h : (lookupA m k).isSome = true) : k ∈ m.map Prod.fst := by
  by_contra hmem
  rw [lookupA_eq_none_of_not_mem_keys m k hmem] at h
  simp at h

theorem mem_keys_insertA {α : Type} (m : List (String × α)) (k : String) (v : α)
    (x : String) (h : x ∈ (insertA m k v).map Prod.fst) :
    x = k ∨ x ∈ m.map Prod.fst := by
  induction m with
  | nil => simpa [insertA] using h
  | cons kv rest ih =>
    obtain ⟨k0, w⟩ := kv
    by_cases h0 : k0 = k
    · subst h0
      rcases (by simpa [insertA] using h : x = k0 ∨ x ∈ rest.map Prod.fst) with h1 | h1
      · exact Or.inl h1
      · exact Or.inr (by simp [h1])
    · rcases (by simpa [insertA, h0] using h :
          x = k0 ∨ x ∈ (insertA rest k v).map Prod.fst) with h1 | h1
      · exact Or.inr (by simp [h1])
      · rcases ih h1 with h2 | h2
        · exact Or.inl h2
        · exact Or.inr (by simp [h2])

theorem mem_keys_eraseA {α : Type} (m : List (String × α)) (k : String)
    (x : String) (h : x ∈ (eraseA m k).map Prod.fst) : x ∈ m.map Prod.fst := by
  induction m with
  | nil => simp [eraseA] at h
  | cons kv rest ih =>
    obtain ⟨k0, w⟩ := kv
    by_cases h0 : k0 = k
    · have := ih (by simpa [eraseA, h0] using h)
      simp [this]
    · rcases (by simpa [eraseA, h0] using h :
          x = k0 ∨ x ∈ (eraseA rest k).map Prod.fst) with h1 | h1
      · simp [h1]
      · simp [ih h1]

theorem keysNodup_insertA {α : Type} (m : List (String × α)) (k : String) (v : α)
    (h : keysNodup m) : keysNodup (insertA m k v) := by
  induction m with
  | nil => simp [insertA, keysNodup]
  | cons kv rest ih =>
    obtain ⟨k0, w⟩ := kv
    simp only [keysNodup, List.map_cons, List.nodup_cons] at h
    by_cases h0 : k0 = k
    · subst h0
      simpa [insertA, keysNodup] using h
    · simp only [insertA, if_neg h0, keysNodup, List.map_cons, List.nodup_cons]
      refine ⟨?_, ih h.2⟩
      intro hk0
      rcases mem_keys_insertA rest k v k0 hk0 with h2 | h2
      · exact h0 h2
      · exact h.1 h2

theorem keysNodup_eraseA {α : Type} (m : List (String × α)) (k : String)
    (h : keysNodup m) : keysNodup (eraseA m k) := by
  induction m with
  | nil => simp [eraseA, keysNodup]
  | cons kv rest ih =>
    obtain ⟨k0, w⟩ := kv
    simp only [keysNodup, List.map_cons, List.nodup_cons] at h
    by_cases h0 : k0 = k
    · simpa [eraseA, h0] using ih h.2
    · simp only [eraseA, if_neg h0, keysNodup, List.map_cons, List.nodup_cons]
      refine ⟨?_, ih h.2⟩
      intro hk0
      exact h.1 (mem_keys_eraseA rest k k0 hk0)

/-! ## JavaScript string helpers -/

/-- The double quote character. -/
def quoteChar : Char := Char.ofNat 34

/-- The single quote (apostrophe) character. -/
def aposChar : Char := Char.ofNat 39

/-- Characters removed by JS `String.prototype.trim` (WhiteSpace and
LineTerminator code points). -/
def isJsWhitespace (c : Char) : Bool :=
  c = Char.ofNat 0x9 || c = Char.ofNat 0xA || c = Char.ofNat 0xB ||
  c = Char.ofNat 0xC || c = Char.ofNat 0xD || c = Char.ofNat 0x20 ||
  c = Char.ofNat 0xA0 || c = Char.ofNat 0x1680 || (0x2000 ≤ c.toNat && c.toNat ≤ 0x200A) ||
  c = Char.ofNat 0x2028 || c = Char.ofNat 0x2029 || c = Char.ofNat 0x202F ||
  c = Char.ofNat 0x205F || c = Char.ofNat 0x3000 || c = Char.ofNat 0xFEFF

/-- JS `s.trim()` on a character list. -/
def jsTrimList (l : List Char) : List Char :=
  ((l.dropWhile isJsWhitespace).reverse.dropWhile isJsWhitespace).reverse

/-- JS `s.trim()`. -/
def jsTrim (s : String) : String :=
  String.mk (jsTrimList s.toList)

/-- JS `s.substring(0, n)`. -/
def takeStr (n : Nat) (s : String) : String :=
  String.mk (s.toList.take n)

/-- Membership of a character in the class `[\x00-\x1F\x7F]` used by
`sanitizeUserName`. -/
def isCtlAll (c : Char) : Bool :=
  c.toNat ≤ 0x1F || c.toNat = 0x7F

/-- Membership of a character in the class
`[\x00-\x08\x0B\x0C\x0E-\x1F\x7F]` used by `validateMessage` (leaves TAB,
LF and CR in place). -/
def isCtlMsg (c : Char) : Bool :=
  c.toNat ≤ 0x08 || c.toNat = 0x0B || c.toNat = 0x0C ||
  (0x0E ≤ c.toNat && c.toNat ≤ 0x1F) || c.toNat = 0x7F

/-- JS `s.replace(/c/g, rep)` for a single-character pattern `c`. -/
def replaceChar (c : Char) (rep : List Char) (l : List Char) : List Char :=
  l.flatMap (fun x => if x = c then rep else [x])

/-- The regex test `^\d{4}$` used by the handlers to validate room codes. -/
def isFourDigitCode (s : String) : Bool :=
  s.length == 4 && s.toList.all Char.isDigit

/-! ## Configuration (`server/src/config.js`)

Each field embeds the corresponding configuration constant; values are
parameters because the source reads them from the environment, falling back
to the defaults recorded in `defaultConfig`. -/

structure Config where
  MAX_CONNECTIONS_PER_IP : Nat
  EVENT_RATE_LIMIT : Nat
  EVENT_RATE_WINDOW_MS : Int
  RATE_LIMIT_MAX_MESSAGES : Nat
  RATE_LIMIT_WINDOW_MS : Int
  MESSAGE_MAX_LENGTH : Nat
  MESSAGE_MIN_LENGTH : Nat
  MESSAGE_HISTORY_LIMIT : Nat
  ROOM_MAX_USERS : Nat
  ROOM_CLEANUP_DELAY_MS : Int
  ROOM_MAX_ROOMS : Nat
  USERNAME_MAX_LENGTH : Nat
  USERNAME_MIN_LENGTH : Nat
deriving Repr, DecidableEq

/-- The default values from `config.js` (no environment overrides).
`MESSAGE.MIN_LENGTH`, `USERNAME.MAX_LENGTH` and `USERNAME.MIN_LENGTH` are
hard-coded constants in the source. -/
def defaultConfig : Config :=
  ⟨5, 10, 60000, 10, 10000, 1000, 1, 100, 50, 0, 1000, 20, 1⟩

/-! ## RateLimiter (`server/src/rateLimiter.js`) -/

/-- A per-identifier entry `{ count, windowStart }` of the rate limiter. -/
structure RLClient where
  count : Nat
  windowStart : Int
deriving Repr, DecidableEq

/-- The `clients` map of a `RateLimiter` instance. -/
structure RLState where
  clients : List (String × RLClient)
deriving Repr, DecidableEq

/-- The result object of `RateLimiter.check`. -/
structure RLResult where
  allowed : Bool
  remaining : Nat
  resetIn : Int
deriving Repr, DecidableEq

/-- `RateLimiter.check(identifier)` at time `now` for a limiter constructed
with `maxRequests` and `windowMs`. -/
def RateLimiter.check (maxRequests : Nat) (windowMs : Int) (s : RLState)
    (identifier : String) (now : Int) : RLResult × RLState :=
  let step :=
    match lookupA s.clients identifier with
    | none =>
      let c : RLClient := ⟨0, now⟩
      (c, insertA s.clients identifier c)
    | some c =>
      if now - c.windowStart ≥ windowMs then
        let c' : RLClient := ⟨0, now⟩
        (c', insertA s.clients identifier c')
      else (c, s.clients)
  let client := step.1
  let clients1 := step.2
  if client.count < maxRequests then
    (⟨true, maxRequests - (client.count + 1), windowMs - (now - client.windowStart)⟩,
     ⟨insertA clients1 identifier ⟨client.count + 1, client.windowStart⟩⟩)
  else
    (⟨false, 0, windowMs - (now - client.windowStart)⟩, ⟨clients1⟩)

/-- `RateLimiter.remove(identifier)` (used on disconnect). -/
def RateLimiter.remove (s : RLState) (identifier : String) : RLState :=
  ⟨eraseA s.clients identifier⟩

/-- `RateLimiter.cleanup()`: drop entries whose window start is older than
`2 × windowMs`. -/
def RateLimiter.cleanup (windowMs : Int) (s : RLState) (now : Int) : RLState :=
  ⟨s.clients.filter (fun kv => ¬ (now - kv.2.windowStart > windowMs * 2))⟩

/-! ## RoomManager data model (`server/src/roomManager.js`) -/

/-- A `{ id, name }` user object stored in `room.users`. -/
structure UserInfo where
  id : String
  name : String
deriving Repr, DecidableEq

/-- A `{ roomId, id, name }` entry of the reverse index `userSockets`
(`{ roomId, ...userInfo }` in the source). -/
structure SockEntry where
  roomId : String
  id : String
  name : String
deriving Repr, DecidableEq

/-- A chat message object. -/
structure Msg where
  id : String
  type : String
  senderId : String
  senderName : String
  content : String
  timestamp : Int
deriving Repr, DecidableEq

/-- A room object `{ id, users, createdAt, messages }`. -/
structure Room where
  id : String
  users : List (String × UserInfo)
  createdAt : Int
  messages : List Msg
deriving Repr, DecidableEq

/-- The mutable state of the `RoomManager` singleton: the `rooms` map, the
reverse index `userSockets` and the set of room ids with a pending cleanup
timer (`cleanupTimers`). -/
structure RMState where
  rooms : List (String × Room)
  userSockets : List (String × SockEntry)
  cleanupTimers : List String
deriving Repr, DecidableEq

/-- The `RoomManager` state at process start. -/
def emptyRM : RMState := ⟨[], [], []⟩

/-! ## RoomManager operations -/

/-- Models `Math.floor(1000 + Math.random() * 9000)` for a given value `r`
of `Math.random()` (so `r ∈ [0,1)`); used by both `generateRoomCode` and
`generateUserName`. -/
def sampleCode (r : ℚ) : Int :=
  ⌊(1000 : ℚ) + r * 9000⌋

/-- Decimal string of a sampled code, i.e. `.toString()` on the number. -/
def sampleCodeStr (r : ℚ) : String :=
  toString (sampleCode r)

/-- `generateUserName()`: an anonymous username `User_<suffix>` where
`suffix = Math.floor(1000 + Math.random() * 9000)`. -/
def generateUserName (r : ℚ) : String :=
  "User_" ++ toString (sampleCode r)

/-- `sanitizeUserName(name)`: `null` for missing/non-string/falsy input,
otherwise trim, cap at `USERNAME.MAX_LENGTH`, reject if shorter than
`USERNAME.MIN_LENGTH`, then strip `[\x00-\x1F\x7F]`.  `none` embeds the JS
`null` return. -/
def sanitizeUserName (cfg : Config) (name : Option String) : Option String :=
  match name with
  | none => none
  | some s =>
    if s = "" then none
    else
      let sanitized := takeStr cfg.USERNAME_MAX_LENGTH (jsTrim s)
      if sanitized.length < cfg.USERNAME_MIN_LENGTH then none
      else some (String.mk (sanitized.toList.filter (fun c => ¬ isCtlAll c)))

/-- The do/while retry loop of `generateRoomCode`, with `attempts` counting
the samples already drawn.  Iteration `i` draws `rands i`; after
incrementing, the loop throws once the attempt counter reaches
`maxAttempts = 100`, else retries while the code is taken. -/
def genCodeLoop (rooms : List (String × Room)) (rands : Nat → ℚ) (attempts : Nat) :
    Except String String :=
  let code := sampleCodeStr (rands attempts)
  if 100 ≤ attempts + 1 then
    .error "Unable to generate unique room code. Server at capacity."
  else if hasA rooms code then genCodeLoop rooms rands (attempts + 1)
  else .ok code
termination_by 100 - attempts
decreasing_by omega

/-- `generateRoomCode()`, drawing its `Math.random()` values from the
oracle stream `rands`. -/
def generateRoomCode (s : RMState) (rands : Nat → ℚ) : Except String String :=
  genCodeLoop s.rooms rands 0

/-- `createRoom()` at time `now`.  Fails fast on the global room ceiling,
then generates a code; every `throw` happens before any mutation, so the
state next to an error is unchanged. -/
def createRoom (cfg : Config) (s : RMState) (rands : Nat → ℚ) (now : Int) :
    Except String Room × RMState :=
  if cfg.ROOM_MAX_ROOMS > 0 ∧ s.rooms.length ≥ cfg.ROOM_MAX_ROOMS then
    (.error "Server at capacity. Please try again later.", s)
  else
    match generateRoomCode s rands with
    | .error e => (.error e, s)
    | .ok roomId =>
      let room : Room := ⟨roomId, [], now, []⟩
      (.ok room, ⟨insertA s.rooms roomId room, s.userSockets, s.cleanupTimers⟩)

/-- `roomExists(roomId)`. -/
def roomExists (s : RMState) (roomId : String) : Bool :=
  hasA s.rooms roomId

/-- `getRoomUserCount(roomId)`. -/
def getRoomUserCount (s : RMState) (roomId : String) : Nat :=
  match lookupA s.rooms roomId with
  | some room => room.users.length
  | none => 0

/-- `getUserInfo(socketId)`. -/
def getUserInfo (s : RMState) (socketId : String) : Option SockEntry :=
  lookupA s.userSockets socketId

/-- `cancelRoomCleanup(roomId)`: clear and forget a pending timer. -/
def cancelRoomCleanup (s : RMState) (roomId : String) : RMState :=
  ⟨s.rooms, s.userSockets, s.cleanupTimers.filter (fun r => r ≠ roomId)⟩

/-- `destroyRoom(roomId)`: defensively detach any users still tracked, then
delete the room and cancel its timer. -/
def destroyRoom (s : RMState) (roomId : String) : RMState :=
  match lookupA s.rooms roomId with
  | none => s
  | some room =>
    let us := room.users.foldl (fun m kv => eraseA m kv.1) s.userSockets
    cancelRoomCleanup ⟨eraseA s.rooms roomId, us, s.cleanupTimers⟩ roomId

/-- `scheduleRoomCleanup(roomId)`: destroy immediately when
`CLEANUP_DELAY_MS ≤ 0`, otherwise record a pending timer. -/
def scheduleRoomCleanup (cfg : Config) (s : RMState) (roomId : String) : RMState :=
  let s1 := cancelRoomCleanup s roomId
  if cfg.ROOM_CLEANUP_DELAY_MS ≤ 0 then destroyRoom s1 roomId
  else ⟨s1.rooms, s1.userSockets, roomId :: s1.cleanupTimers⟩

/-- `leaveRoom(roomId, socketId)`: remove the membership from the room and
the reverse index, scheduling cleanup when the room becomes empty.  Returns
the removed user info (`null` embeds to `none`). -/
def leaveRoom (cfg : Config) (s : RMState) (roomId socketId : String) :
    Option UserInfo × RMState :=
  match lookupA s.rooms roomId with
  | none => (none, s)
  | some room =>
    match lookupA room.users socketId with
    | none => (none, s)
    | some userInfo =>
      let room' : Room := ⟨room.id, eraseA room.users socketId, room.createdAt, room.messages⟩
      let s1 : RMState :=
        ⟨insertA s.rooms roomId room', eraseA s.userSockets socketId, s.cleanupTimers⟩
      let s2 := if room'.users.length = 0 then scheduleRoomCleanup cfg s1 roomId else s1
      (some userInfo, s2)

/-- `joinRoom(roomId, socketId, preferredName)`.  `nameRand` is the
`Math.random()` oracle consumed if `generateUserName` runs.  The source
captures `room` once by reference; `leaveRoom` of a *different* room never
touches that object, so its captured fields stay valid, which the embedding
mirrors by reusing `room` after the defensive cleanup. -/
def joinRoom (cfg : Config) (s : RMState) (roomId socketId : String)
    (preferredName : Option String) (nameRand : ℚ) :
    Except String UserInfo × RMState :=
  match lookupA s.rooms roomId with
  | none => (.error "Room not found", s)
  | some room =>
    if cfg.ROOM_MAX_USERS > 0 ∧ room.users.length ≥ cfg.ROOM_MAX_USERS then
      (.error "Room is full", s)
    else
      let s1 := cancelRoomCleanup s roomId
      let s2 :=
        match lookupA s1.userSockets socketId with
        | some e => if e.roomId ≠ roomId then (leaveRoom cfg s1 e.roomId socketId).2 else s1
        | none => s1
      match lookupA room.users socketId with
      | some existing => (.ok existing, s2)
      | none =>
        let userId := "user_" ++ takeStr 8 socketId
        let userName :=
          match preferredName with
          | some p =>
            if p ≠ "" then
              match sanitizeUserName cfg (some p) with
              | some n => if n ≠ "" then n else generateUserName nameRand
              | none => generateUserName nameRand
            else generateUserName nameRand
          | none => generateUserName nameRand
        let userInfo : UserInfo := ⟨userId, userName⟩
        let room' : Room :=
          ⟨room.id, insertA room.users socketId userInfo, room.createdAt, room.messages⟩
        (.ok userInfo,
         ⟨insertA s2.rooms roomId room',
          insertA s2.userSockets socketId ⟨roomId, userId, userName⟩,
          s2.cleanupTimers⟩)

/-- `handleDisconnect(socketId)`: look the connection up in the reverse
index and perform `leaveRoom`. -/
def handleDisconnect (cfg : Config) (s : RMState) (socketId : String) :
    Option (String × UserInfo) × RMState :=
  match lookupA s.userSockets socketId with
  | none => (none, s)
  | some e =>
    match leaveRoom cfg s e.roomId socketId with
    | (some removed, s1) => (some (e.roomId, removed), s1)
    | (none, s1) => (none, s1)

/-- The `while (length > HISTORY_LIMIT) shift()` eviction loop of
`addMessage`. -/
def enforceLimit (limit : Nat) (l : List Msg) : List Msg :=
  if l.length > limit then enforceLimit limit l.tail else l
termination_by l.length
decreasing_by simp_all; omega

/-- `addMessage(roomId, message)`: append and evict oldest beyond
`MESSAGE.HISTORY_LIMIT`. -/
def addMessage (cfg : Config) (s : RMState) (roomId : String) (m : Msg) : RMState :=
  match lookupA s.rooms roomId with
  | none => s
  | some room =>
    ⟨insertA s.rooms roomId
      ⟨room.id, room.users, room.createdAt,
       enforceLimit cfg.MESSAGE_HISTORY_LIMIT (room.messages ++ [m])⟩,
     s.userSockets, s.cleanupTimers⟩

/-- `updateUserName(socketId, newName)`: sanitize, then update both the room
membership record and the reverse-index entry.  A `null`-ish sanitization
result (`none` or the empty string, both falsy in JS) aborts. -/
def updateUserName (cfg : Config) (s : RMState) (socketId newName : String) :
    Option UserInfo × RMState :=
  match sanitizeUserName cfg (some newName) with
  | none => (none, s)
  | some sanitizedName =>
    if sanitizedName = "" then (none, s)
    else
      match lookupA s.userSockets socketId with
      | none => (none, s)
      | some e =>
        match lookupA s.rooms e.roomId with
        | none => (none, s)
        | some room =>
          match lookupA room.users socketId with
          | none => (none, s)
          | some roomUser =>
            let room' : Room :=
              ⟨room.id, insertA room.users socketId ⟨roomUser.id, sanitizedName⟩,
               room.createdAt, room.messages⟩
            let e' : SockEntry := ⟨e.roomId, e.id, sanitizedName⟩
            (some ⟨e.id, sanitizedName⟩,
             ⟨insertA s.rooms e.roomId room', insertA s.userSockets socketId e',
              s.cleanupTimers⟩)

/-! ## Message validation (`server/src/socket.js`, `validateMessage`) -/

/-- A JS value as seen by a handler: a string, or a non-string value of
which only the truthiness matters. -/
inductive JSVal where
  | str : String → JSVal
  | other : Bool → JSVal
deriving Repr, DecidableEq

/-- The result object of `validateMessage`. -/
inductive VResult where
  | invalid : String → VResult
  | valid : String → VResult
deriving Repr, DecidableEq

/-- The four HTML entity replacement steps after the `&` step, on character
lists; the source applies five global single-character `replace` calls in
the order `& < > " '`. -/
def escapeHtmlChain (l : List Char) : List Char :=
  replaceChar aposChar "&#x27;".toList
    (replaceChar quoteChar "&quot;".toList
      (replaceChar '>' "&gt;".toList
        (replaceChar '<' "&lt;".toList
          (replaceChar '&' "&amp;".toList l))))

/-- `validateMessage(content)`: reject non-string/falsy, empty-after-trim and
over-length input, then strip the control class and HTML-escape. -/
def validateMessage (cfg : Config) (content : JSVal) : VResult :=
  match content with
  | .other _ => .invalid "Message cannot be empty"
  | .str s =>
    if s = "" then .invalid "Message cannot be empty"
    else
      let trimmed := jsTrimList s.toList
      if trimmed.length < cfg.MESSAGE_MIN_LENGTH then .invalid "Message too short"
      else if trimmed.length > cfg.MESSAGE_MAX_LENGTH then
        .invalid ("Message too long (max " ++ toString cfg.MESSAGE_MAX_LENGTH ++ " characters)")
      else
        let stripped := trimmed.filter (fun c => ¬ isCtlMsg c)
        .valid (String.mk (escapeHtmlChain stripped))

/-! ## Socket event handlers (`server/src/socket.js`)

Each handler is embedded as a pure function from the rate-limiter and room
states (plus oracle parameters for `Date.now()` and `Math.random()`) to the
callback result, the successor states and the list of emitted events.  The
`try/catch` of each source handler is embedded through the `Except` results
of the room-manager operations: the value a source `catch` block passes to
the callback is exactly what the embedding returns on the `.error` branch. -/

/-- A callback result object `{ success, error?, roomId?, name? }`. -/
structure CbResult where
  success : Bool
  error : Option String
  roomId : Option String
  name : Option String
deriving Repr, DecidableEq

/-- A failing callback result with error message `e`. -/
def CbResult.fail (e : String) : CbResult := ⟨false, some e, none, none⟩

/-- An outbound event emitted by a handler. -/
inductive Emit where
  | identityEv (id name : String)
  | roomInfoEv (roomId : String) (userCount : Nat)
  | messageEv (roomId : String) (m : Msg)
  | userJoinedEv (roomId userId userName : String) (userCount : Nat)
  | userRenamedEv (roomId userId : String) (oldName : Option String) (newName : String)
  | rateLimitedEv (resetIn : Int)
deriving Repr, DecidableEq

/-- `createSystemMessage(roomId, content)` at time `now` with random id
suffix `rand`. -/
def createSystemMessage (content : String) (now : Int) (rand : String) : Msg :=
  ⟨"sys_" ++ toString now ++ "_" ++ rand, "system", "system", "System", content, now⟩

/-- String interpolation of a possibly-`undefined` JS value. -/
def jsShowOpt (s : Option String) : String :=
  match s with
  | some v => v
  | none => "undefined"

/-- The `create-room` handler: event-rate check, then `createRoom`; the
`catch` passes `error.message` to the callback. -/
def createRoomHandler (cfg : Config) (rl : RLState) (rm : RMState) (socketId : String)
    (now : Int) (rands : Nat → ℚ) : CbResult × RLState × RMState :=
  let rc := RateLimiter.check cfg.EVENT_RATE_LIMIT cfg.EVENT_RATE_WINDOW_MS rl socketId now
  if ¬ rc.1.allowed then (.fail "Too many requests. Please wait.", rc.2, rm)
  else
    match createRoom cfg rm rands now with
    | (.ok room, rm') => (⟨true, none, some room.id, none⟩, rc.2, rm')
    | (.error e, rm') => (.fail e, rc.2, rm')

/-- The `join-room` handler (object payload variant): event-rate check,
payload validation, existence check, then `joinRoom` with emits to the
joiner and the room; the `catch` passes `error.message` to the callback. -/
def joinRoomHandler (cfg : Config) (rl : RLState) (rm : RMState) (socketId : String)
    (data : Option (JSVal × Option JSVal)) (now : Int) (nameRand : ℚ) (sysRand : String) :
    CbResult × RLState × RMState × List Emit :=
  let rc := RateLimiter.check cfg.EVENT_RATE_LIMIT cfg.EVENT_RATE_WINDOW_MS rl socketId now
  if ¬ rc.1.allowed then (.fail "Too many requests. Please wait.", rc.2, rm, [])
  else
    match data with
    | none => (.fail "Invalid request", rc.2, rm, [])
    | some (roomIdV, preferredNameV) =>
      match roomIdV with
      | .other _ => (.fail "Invalid room code", rc.2, rm, [])
      | .str roomId =>
        if ¬ isFourDigitCode roomId then (.fail "Invalid room code", rc.2, rm, [])
        else if ¬ roomExists rm roomId then (.fail "Room not found", rc.2, rm, [])
        else
          let preferredName :=
            match preferredNameV with
            | some (.str p) => some p
            | _ => none
          match joinRoom cfg rm roomId socketId preferredName nameRand with
          | (.error e, rm') => (.fail e, rc.2, rm', [])
          | (.ok userInfo, rm') =>
            let joinMessage :=
              createSystemMessage (userInfo.name ++ " joined the room") now sysRand
            (⟨true, none, none, none⟩, rc.2, rm',
             [Emit.identityEv userInfo.id userInfo.name,
              Emit.roomInfoEv roomId (getRoomUserCount rm' roomId),
              Emit.messageEv roomId joinMessage,
              Emit.userJoinedEv roomId userInfo.id userInfo.name
                (getRoomUserCount rm' roomId)])

/-- The `send-message` handler: payload validation, message-rate check (which
consumes budget), membership check, content validation, then store and
broadcast. -/
def sendMessageHandler (cfg : Config) (rl : RLState) (rm : RMState) (socketId : String)
    (data : Option (JSVal × JSVal)) (now : Int) (msgRand : String) :
    CbResult × RLState × RMState × List Emit :=
  match data with
  | none => (.fail "Invalid request", rl, rm, [])
  | some (roomIdV, contentV) =>
    match roomIdV with
    | .other _ => (.fail "Invalid room", rl, rm, [])
    | .str roomId =>
      if ¬ isFourDigitCode roomId then (.fail "Invalid room", rl, rm, [])
      else
        let rc := RateLimiter.check cfg.RATE_LIMIT_MAX_MESSAGES cfg.RATE_LIMIT_WINDOW_MS
          rl socketId now
        if ¬ rc.1.allowed then
          (.fail "Rate limited", rc.2, rm, [Emit.rateLimitedEv rc.1.resetIn])
        else
          match getUserInfo rm socketId with
          | none => (.fail "Not in room", rc.2, rm, [])
          | some userInfo =>
            if userInfo.roomId ≠ roomId then (.fail "Not in room", rc.2, rm, [])
            else
              match validateMessage cfg contentV with
              | .invalid e => (.fail e, rc.2, rm, [])
              | .valid sanitized =>
                let message : Msg :=
                  ⟨"msg_" ++ toString now ++ "_" ++ msgRand, "user",
                   userInfo.id, userInfo.name, sanitized, now⟩
                let rm' := addMessage cfg rm roomId message
                (⟨true, none, none, none⟩, rc.2, rm', [Emit.messageEv roomId message])

/-- The `update-username` handler: payload validation, handler-level name
sanitization, then `updateUserName` with identity re-emit; the rename system
message is conditional on the name having changed, the `user-renamed`
broadcast is not. -/
def updateUsernameHandler (cfg : Config) (rm : RMState) (socketId : String)
    (data : Option (JSVal × JSVal)) (now : Int) (sysRand : String) :
    CbResult × RMState × List Emit :=
  match data with
  | none => (.fail "Invalid request", rm, [])
  | some (roomIdV, newNameV) =>
    match roomIdV with
    | .other _ => (.fail "Invalid room", rm, [])
    | .str roomId =>
      if ¬ isFourDigitCode roomId then (.fail "Invalid room", rm, [])
      else
        match newNameV with
        | .other _ => (.fail "Invalid name", rm, [])
        | .str newName =>
          if newName = "" then (.fail "Invalid name", rm, [])
          else
            let sanitizedName := takeStr cfg.USERNAME_MAX_LENGTH (jsTrim newName)
            if sanitizedName.length < cfg.USERNAME_MIN_LENGTH then
              (.fail "Name too short", rm, [])
            else
              let oldName := (getUserInfo rm socketId).map SockEntry.name
              match updateUserName cfg rm socketId sanitizedName with
              | (none, rm') => (.fail "Failed to update name", rm', [])
              | (some updated, rm') =>
                let renameEmits :=
                  if roomId ≠ "" ∧ oldName ≠ some updated.name then
                    [Emit.messageEv roomId
                      (createSystemMessage
                        (jsShowOpt oldName ++ " is now " ++ updated.name) now sysRand)]
                  else []
                (⟨true, none, none, some updated.name⟩, rm',
                 Emit.identityEv updated.id updated.name ::
                   renameEmits ++
                   [Emit.userRenamedEv roomId updated.id oldName updated.name])

/-! ## Concrete values used by witnesses and counterexamples -/

/-- The default configuration with `MESSAGE_HISTORY_LIMIT` lowered to 2. -/
def cfgHist2 : Config := ⟨5, 10, 60000, 10, 10000, 1000, 1, 2, 50, 0, 1000, 20, 1⟩

/-- The default configuration with `ROOM_MAX_USERS` lowered to 1. -/
def cfgOneUser : Config := ⟨5, 10, 60000, 10, 10000, 1000, 1, 100, 1, 0, 1000, 20, 1⟩

/-- The default configuration with `ROOM_MAX_ROOMS` lowered to 1. -/
def cfgOneRoom : Config := ⟨5, 10, 60000, 10, 10000, 1000, 1, 100, 50, 0, 1, 20, 1⟩

/-- A state with one room `1234` whose only member is socket `sockAAAA`
named `Alice`; exactly the state reached by creating the room (code sample
`1234`) and joining with preferred name `Alice`. -/
def stateAlice : RMState :=
  ⟨[("1234", ⟨"1234", [("sockAAAA", ⟨"user_sockAAAA", "Alice"⟩)], 0, []⟩)],
   [("sockAAAA", ⟨"1234", "user_sockAAAA", "Alice"⟩)], []⟩

/-! ## History bound (claim C5) -/

/-- A sequence of `addMessage` calls to one room, oldest first. -/
def addMsgFold (cfg : Config) (s : RMState) (roomId : String) (ms : List Msg) : RMState :=
  ms.foldl (fun st m => addMessage cfg st roomId m) s

theorem enforceLimit_eq_drop (limit : Nat) (l : List Msg) :
    enforceLimit limit l = l.drop (l.length - limit) := by
  induction l with
  | nil =>
    rw [enforceLimit]
    simp
  | cons a t ih =>
    rw [enforceLimit]
    simp only [List.tail_cons, List.length_cons, gt_iff_lt]
    by_cases h : limit < t.length + 1
    · rw [if_pos h, ih]
      have h1 : t.length + 1 - limit = (t.length - limit) + 1 := by omega
      rw [h1, List.drop_succ_cons]
    · rw [if_neg h]
      have h1 : t.length + 1 - limit = 0 := by omega
      rw [h1, List.drop_zero]

theorem addMsgFold_messages (cfg : Config) :
    ∀ (ms : List Msg) (s : RMState) (roomId : String) (room : Room),
      lookupA s.rooms roomId = some room →
      room.messages.length ≤ cfg.MESSAGE_HISTORY_LIMIT →
      ∃ room', lookupA (addMsgFold cfg s roomId ms).rooms roomId = some room' ∧
        room'.messages =
          (room.messages ++ ms).drop
            (room.messages.length + ms.length - cfg.MESSAGE_HISTORY_LIMIT) := by
  intro ms
  induction ms with
  | nil =>
    intro s roomId room hlook hlen
    refine ⟨room, hlook, ?_⟩
    simp only [List.append_nil, List.length_nil, Nat.add_zero]
    have h0 : room.messages.length - cfg.MESSAGE_HISTORY_LIMIT = 0 := by omega
    rw [h0, List.drop_zero]
  | cons m ms ih =>
    intro s roomId room hlook hlen
    have hfold : addMsgFold cfg s roomId (m :: ms) =
        addMsgFold cfg (addMessage cfg s roomId m) roomId ms := by
      simp [addMsgFold]
    have hstep : addMessage cfg s roomId m =
        ⟨insertA s.rooms roomId
          ⟨room.id, room.users, room.createdAt,
           enforceLimit cfg.MESSAGE_HISTORY_LIMIT (room.messages ++ [m])⟩,
         s.userSockets, s.cleanupTimers⟩ := by
      rw [addMessage, hlook]
    have hlook1 : lookupA (addMessage cfg s roomId m).rooms roomId =
        some ⟨room.id, room.users, room.createdAt,
          enforceLimit cfg.MESSAGE_HISTORY_LIMIT (room.messages ++ [m])⟩ := by
      rw [hstep]
      exact lookupA_insertA_self _ _ _
    have hd : enforceLimit cfg.MESSAGE_HISTORY_LIMIT (room.messages ++ [m]) =
        (room.messages ++ [m]).drop
          (room.messages.length + 1 - cfg.MESSAGE_HISTORY_LIMIT) := by
      rw [enforceLimit_eq_drop]
      simp
    have he1 : (enforceLimit cfg.MESSAGE_HISTORY_LIMIT (room.messages ++ [m])).length =
        room.messages.length + 1 -
          (room.messages.length + 1 - cfg.MESSAGE_HISTORY_LIMIT) := by
      rw [hd]
      simp only [List.length_drop, List.length_append, List.length_cons, List.length_nil]
    have hlen1 :
        (enforceLimit cfg.MESSAGE_HISTORY_LIMIT (room.messages ++ [m])).length ≤
          cfg.MESSAGE_HISTORY_LIMIT := by
      rw [he1]
      omega
    obtain ⟨room', hlook', hmsgs⟩ := ih (addMessage cfg s roomId m) roomId _ hlook1 hlen1
    refine ⟨room', by rw [hfold]; exact hlook', ?_⟩
    have hdle : room.messages.length + 1 - cfg.MESSAGE_HISTORY_LIMIT ≤
        (room.messages ++ [m]).length := by
      simp only [List.length_append, List.length_cons, List.length_nil]
      omega
    have harr : (room.messages ++ [m]) ++ ms = room.messages ++ m :: ms := by
      simp
    rw [hmsgs, he1, hd, ← List.drop_append_of_le_length hdle, List.drop_drop, harr]
    congr 1
    simp only [List.length_cons]
    omega

/-- C5: after any sequence of `addMessage` calls a room's history holds at
most `HISTORY_LIMIT` messages, and once more than `HISTORY_LIMIT` messages
have been added to an initially-empty room it holds exactly the most recent
`HISTORY_LIMIT` of them in insertion order (oldest evicted first). -/
theorem C5_history_bounded_fifo (cfg : Config) (s : RMState) (roomId : String)
    (room : Room) (ms : List Msg)
    (hlook : lookupA s.rooms roomId = some room)
    (hlen : room.messages.length ≤ cfg.MESSAGE_HISTORY_LIMIT) :
    ∃ room', lookupA (addMsgFold cfg s roomId ms).rooms roomId = some room' ∧
      room'.messages =
        (room.messages ++ ms).drop
          (room.messages.length + ms.length - cfg.MESSAGE_HISTORY_LIMIT) ∧
      room'.messages.length ≤ cfg.MESSAGE_HISTORY_LIMIT ∧
      (room.messages = [] → cfg.MESSAGE_HISTORY_LIMIT < ms.length →
        room'.messages = ms.drop (ms.length - cfg.MESSAGE_HISTORY_LIMIT) ∧
        room'.messages.length = cfg.MESSAGE_HISTORY_LIMIT) := by
  obtain ⟨room', hlook', hmsgs⟩ := addMsgFold_messages cfg ms s roomId room hlook hlen
  refine ⟨room', hlook', hmsgs, ?_, ?_⟩
  · rw [hmsgs]
    simp only [List.length_drop, List.length_append]
    omega
  · intro hempty hover
    rw [hempty] at hmsgs
    simp only [List.nil_append, List.length_nil, Nat.zero_add] at hmsgs
    refine ⟨hmsgs, ?_⟩
    rw [hmsgs]
    simp only [List.length_drop]
    omega

/-- A state with one member-less, message-less room with code `1234`. -/
def stateEmptyRoom : RMState := ⟨[("1234", ⟨"1234", [], 0, []⟩)], [], []⟩

/-- The room stored in `stateEmptyRoom`. -/
def emptyRoom1234 : Room := ⟨"1234", [], 0, []⟩

/-- Three sample user messages. -/
def threeMsgs : List Msg :=
  [⟨"m1", "user", "a", "A", "one", 1⟩, ⟨"m2", "user", "a", "A", "two", 2⟩,
   ⟨"m3", "user", "a", "A", "three", 3⟩]

/-- Witness for C5 at a concrete input: history limit 2, three messages
added to an empty room leave exactly the last two, in order. -/
theorem C5_history_bounded_fifo_witness :
    lookupA stateEmptyRoom.rooms "1234" = some emptyRoom1234 ∧
    emptyRoom1234.messages.length ≤ cfgHist2.MESSAGE_HISTORY_LIMIT ∧
    (∃ room', lookupA (addMsgFold cfgHist2 stateEmptyRoom "1234" threeMsgs).rooms "1234" =
        some room' ∧
      room'.messages = (emptyRoom1234.messages ++ threeMsgs).drop
        (emptyRoom1234.messages.length + threeMsgs.length - cfgHist2.MESSAGE_HISTORY_LIMIT) ∧
      room'.messages.length ≤ cfgHist2.MESSAGE_HISTORY_LIMIT ∧
      (emptyRoom1234.messages = [] → cfgHist2.MESSAGE_HISTORY_LIMIT < threeMsgs.length →
        room'.messages = threeMsgs.drop (threeMsgs.length - cfgHist2.MESSAGE_HISTORY_LIMIT) ∧
        room'.messages.length = cfgHist2.MESSAGE_HISTORY_LIMIT)) :=
  ⟨by decide, by decide,
   C5_history_bounded_fifo cfgHist2 stateEmptyRoom "1234" emptyRoom1234 threeMsgs
     (by decide) (by decide)⟩

/-! ## Rate limiter behaviour (claim C3) -/

theorem insertA_insertA {α : Type} (m : List (String × α)) (k : String) (v v' : α) :
    insertA (insertA m k v) k v' = insertA m k v' := by
  induction m with
  | nil => simp [insertA]
  | cons kv rest ih =>
    obtain ⟨k0, w⟩ := kv
    by_cases h0 : k0 = k
    · simp [insertA, h0]
    · simp [insertA, h0, ih]

theorem map_range_succ (f : Nat → Bool) (n : Nat) :
    (List.range (n + 1)).map f = f 0 :: (List.range n).map (fun i => f (i + 1)) := by
  rw [List.range_succ_eq_map]
  simp [List.map_map]

/-- A sequence of `check` calls for one identifier at the given times. -/
def runChecks (maxRequests : Nat) (windowMs : Int) (s : RLState) (id : String) :
    List Int → List Bool × RLState
  | [] => ([], s)
  | t :: ts =>
    let r := RateLimiter.check maxRequests windowMs s id t
    let rest := runChecks maxRequests windowMs r.2 id ts
    (r.1.allowed :: rest.1, rest.2)

theorem check_fresh (m : Nat) (w : Int) (s : RLState) (id : String) (now : Int)
    (h : lookupA s.clients id = none) (hm : 0 < m) :
    RateLimiter.check m w s id now =
      (⟨true, m - 1, w⟩, ⟨insertA s.clients id ⟨1, now⟩⟩) := by
  simp [RateLimiter.check, h, hm, insertA_insertA]

theorem check_inWindow_allowed (m : Nat) (w : Int) (s : RLState) (id : String)
    (now : Int) (c : RLClient) (h : lookupA s.clients id = some c)
    (hw : now - c.windowStart < w) (hc : c.count < m) :
    RateLimiter.check m w s id now =
      (⟨true, m - (c.count + 1), w - (now - c.windowStart)⟩,
       ⟨insertA s.clients id ⟨c.count + 1, c.windowStart⟩⟩) := by
  have hw' : ¬ now - c.windowStart ≥ w := by omega
  simp [RateLimiter.check, h, hw', hc]

theorem check_inWindow_denied (m : Nat) (w : Int) (s : RLState) (id : String)
    (now : Int) (c : RLClient) (h : lookupA s.clients id = some c)
    (hw : now - c.windowStart < w) (hc : ¬ c.count < m) :
    RateLimiter.check m w s id now =
      (⟨false, 0, w - (now - c.windowStart)⟩, ⟨s.clients⟩) := by
  have hw' : ¬ now - c.windowStart ≥ w := by omega
  simp [RateLimiter.check, h, hw', hc]

theorem check_reset (m : Nat) (w : Int) (s : RLState) (id : String) (now : Int)
    (c : RLClient) (h : lookupA s.clients id = some c)
    (hw : now - c.windowStart ≥ w) (hm : 0 < m) :
    RateLimiter.check m w s id now =
      (⟨true, m - 1, w⟩, ⟨insertA s.clients id ⟨1, now⟩⟩) := by
  simp [RateLimiter.check, h, hw, hm, insertA_insertA]

theorem runChecks_inWindow (w : Int) (id : String) :
    ∀ (ts : List Int) (s : RLState) (c : RLClient),
      lookupA s.clients id = some c → c.count ≤ 10 →
      (∀ t ∈ ts, t - c.windowStart < w) →
      (runChecks 10 w s id ts).1 =
        (List.range ts.length).map (fun i => decide (c.count + i < 10)) ∧
      ∃ c', lookupA (runChecks 10 w s id ts).2.clients id = some c' ∧
        c'.count = min (c.count + ts.length) 10 ∧ c'.windowStart = c.windowStart := by
  intro ts
  induction ts with
  | nil =>
    intro s c h hc hwin
    refine ⟨by simp [runChecks], c, h, by simp; omega, rfl⟩
  | cons t ts ih =>
    intro s c h hc hwin
    have hwt : t - c.windowStart < w := hwin t (by simp)
    by_cases hlt : c.count < 10
    · have hstep := check_inWindow_allowed 10 w s id t c h hwt hlt
      have hlook1 : lookupA (RateLimiter.check 10 w s id t).2.clients id =
          some ⟨c.count + 1, c.windowStart⟩ := by
        rw [hstep]
        exact lookupA_insertA_self _ _ _
      obtain ⟨hres, c', hlook', hcount', hws'⟩ :=
        ih (RateLimiter.check 10 w s id t).2 ⟨c.count + 1, c.windowStart⟩ hlook1
          (by show c.count + 1 ≤ 10; omega) (fun t' ht' => hwin t' (by simp [ht']))
      refine ⟨?_, c', hlook', by simp at hcount' ⊢; omega, hws'⟩
      show (RateLimiter.check 10 w s id t).1.allowed ::
        (runChecks 10 w (RateLimiter.check 10 w s id t).2 id ts).1 = _
      rw [hres, hstep]
      dsimp only
      simp only [List.length_cons]
      rw [map_range_succ]
      simp only [List.cons.injEq]
      refine ⟨by simp [hlt], ?_⟩
      apply List.map_congr_left
      intro i _
      exact decide_eq_decide.mpr (by omega)
    · have hc10 : c.count = 10 := by omega
      have hstep := check_inWindow_denied 10 w s id t c h hwt hlt
      have hs2 : (RateLimiter.check 10 w s id t).2 = s := by
        rw [hstep]
      obtain ⟨hres, c', hlook', hcount', hws'⟩ :=
        ih (RateLimiter.check 10 w s id t).2 c (by rw [hs2]; exact h) hc
          (fun t' ht' => hwin t' (by simp [ht']))
      refine ⟨?_, c', hlook', by simp at hcount' ⊢; omega, hws'⟩
      show (RateLimiter.check 10 w s id t).1.allowed ::
        (runChecks 10 w (RateLimiter.check 10 w s id t).2 id ts).1 = _
      rw [hres, hstep]
      dsimp only
      simp only [List.length_cons]
      rw [map_range_succ]
      simp only [List.cons.injEq]
      refine ⟨by simp [hc10], ?_⟩
      apply List.map_congr_left
      intro i _
      exact decide_eq_decide.mpr (by omega)

/-- C3: for `RateLimiter(maxRequests = 10, windowMs = 10000)` and a fresh
identifier, a run of calls all lying in the window opened by the first call
is allowed exactly on the first 10 calls and denied from the 11th on; and
any call made once `windowMs` has elapsed since the entry's window start is
allowed again with the counter reset (to 0, then incremented by that
call). -/
theorem C3_rate_limiter_window (s0 : RLState) (id : String) (t0 : Int) (ts : List Int)
    (hfresh : lookupA s0.clients id = none)
    (hwin : ∀ t ∈ ts, t - t0 < 10000) :
    (runChecks 10 10000 s0 id (t0 :: ts)).1 =
      (List.range (ts.length + 1)).map (fun i => decide (i < 10)) ∧
    (∀ (s : RLState) (c : RLClient) (t : Int), lookupA s.clients id = some c →
      t - c.windowStart ≥ 10000 →
      (RateLimiter.check 10 10000 s id t).1.allowed = true ∧
      lookupA (RateLimiter.check 10 10000 s id t).2.clients id = some ⟨1, t⟩) := by
  constructor
  · have hstep := check_fresh 10 10000 s0 id t0 hfresh (by omega)
    have hlook1 : lookupA (RateLimiter.check 10 10000 s0 id t0).2.clients id =
        some ⟨1, t0⟩ := by
      rw [hstep]
      exact lookupA_insertA_self _ _ _
    obtain ⟨hres, -⟩ :=
      runChecks_inWindow 10000 id ts (RateLimiter.check 10 10000 s0 id t0).2
        ⟨1, t0⟩ hlook1 (by show (1 : Nat) ≤ 10; omega) (by simpa using hwin)
    show (RateLimiter.check 10 10000 s0 id t0).1.allowed ::
      (runChecks 10 10000 (RateLimiter.check 10 10000 s0 id t0).2 id ts).1 = _
    rw [hres, hstep]
    simp only [List.length_cons]
    rw [map_range_succ]
    simp only [List.cons.injEq]
    refine ⟨by simp, ?_⟩
    apply List.map_congr_left
    intro i _
    refine decide_eq_decide.mpr ?_
    show RLClient.count ⟨1, t0⟩ + i < 10 ↔ i + 1 < 10
    show 1 + i < 10 ↔ i + 1 < 10
    omega
  · intro s c t h hw
    have hstep := check_reset 10 10000 s id t c h hw (by omega)
    rw [hstep]
    refine ⟨rfl, ?_⟩
    exact lookupA_insertA_self _ _ _

/-- Witness for C3: 11 calls at times 0..10 give ten `allowed:true` then
one `allowed:false`; a later call at time 10000 is allowed again. -/
theorem C3_rate_limiter_window_witness :
    lookupA (⟨[]⟩ : RLState).clients "sock" = none ∧
    (runChecks 10 10000 ⟨[]⟩ "sock" [0, 1, 2, 3, 4, 5, 6, 7, 8, 9, 10]).1 =
      [true, true, true, true, true, true, true, true, true, true, false] ∧
    (RateLimiter.check 10 10000
        (runChecks 10 10000 ⟨[]⟩ "sock" [0, 1, 2, 3, 4, 5, 6, 7, 8, 9, 10]).2
        "sock" 10000).1.allowed = true := by
  have h := C3_rate_limiter_window ⟨[]⟩ "sock" 0 [1, 2, 3, 4, 5, 6, 7, 8, 9, 10]
    (by decide) (by decide)
  refine ⟨by decide, ?_, ?_⟩
  · have := h.1
    simpa using this
  · exact (h.2 (runChecks 10 10000 ⟨[]⟩ "sock" [0, 1, 2, 3, 4, 5, 6, 7, 8, 9, 10]).2
      ⟨10, 0⟩ 10000 (by decide) (by decide)).1

/-! ## State-component lemmas for the room operations -/

theorem cancelRoomCleanup_rooms (s : RMState) (roomId : String) :
    (cancelRoomCleanup s roomId).rooms = s.rooms := rfl

theorem cancelRoomCleanup_userSockets (s : RMState) (roomId : String) :
    (cancelRoomCleanup s roomId).userSockets = s.userSockets := rfl

theorem destroyRoom_rooms_ne (s : RMState) (roomId rid : String) (h : rid ≠ roomId) :
    lookupA (destroyRoom s roomId).rooms rid = lookupA s.rooms rid := by
  unfold destroyRoom
  cases hlook : lookupA s.rooms roomId with
  | none => rfl
  | some room =>
    simp only [cancelRoomCleanup]
    exact lookupA_eraseA_ne _ _ _ h

theorem scheduleRoomCleanup_rooms_ne (cfg : Config) (s : RMState) (roomId rid : String)
    (h : rid ≠ roomId) :
    lookupA (scheduleRoomCleanup cfg s roomId).rooms rid = lookupA s.rooms rid := by
  unfold scheduleRoomCleanup
  by_cases hd : cfg.ROOM_CLEANUP_DELAY_MS ≤ 0
  · simp only [if_pos hd]
    rw [destroyRoom_rooms_ne _ _ _ h, cancelRoomCleanup_rooms]
  · simp only [if_neg hd]
    rw [cancelRoomCleanup_rooms]

theorem leaveRoom_rooms_ne (cfg : Config) (s : RMState) (roomId socketId rid : String)
    (h : rid ≠ roomId) :
    lookupA (leaveRoom cfg s roomId socketId).2.rooms rid = lookupA s.rooms rid := by
  cases hlook : lookupA s.rooms roomId with
  | none => simp [leaveRoom, hlook]
  | some room =>
    cases hmem : lookupA room.users socketId with
    | none => simp [leaveRoom, hlook, hmem]
    | some u =>
      simp only [leaveRoom, hlook, hmem]
      by_cases hz : (eraseA room.users socketId).length = 0
      · simp only [if_pos hz]
        rw [scheduleRoomCleanup_rooms_ne cfg _ _ _ h]
        exact lookupA_insertA_ne _ _ _ _ h
      · simp only [if_neg hz]
        exact lookupA_insertA_ne _ _ _ _ h

/-! ## Join failures (claim C7) -/

/-- C7: `joinRoom` on a code naming no live room fails with `Room not found`,
and `joinRoom` on a live room whose member count has reached the per-room
ceiling (`ROOM_MAX_USERS > 0`) fails with `Room is full`; in both cases the
state — in particular all membership — is unchanged. -/
theorem C7_join_notfound_full (cfg : Config) (s : RMState) (roomId socketId : String)
    (preferredName : Option String) (nameRand : ℚ) :
    (lookupA s.rooms roomId = none →
      joinRoom cfg s roomId socketId preferredName nameRand =
        (.error "Room not found", s)) ∧
    (∀ room, lookupA s.rooms roomId = some room →
      cfg.ROOM_MAX_USERS > 0 → room.users.length ≥ cfg.ROOM_MAX_USERS →
      joinRoom cfg s roomId socketId preferredName nameRand =
        (.error "Room is full", s)) := by
  constructor
  · intro h
    unfold joinRoom
    rw [h]
  · intro room h hmax hcap
    unfold joinRoom
    rw [h]
    simp only [if_pos (And.intro hmax hcap)]

/-- Witness for C7: joining the nonexistent room `9998` fails with
`Room not found`; joining room `1234` (one member) under a ceiling of one
member fails with `Room is full`; the state is unchanged both times. -/
theorem C7_join_notfound_full_witness :
    lookupA stateAlice.rooms "9998" = none ∧
    joinRoom defaultConfig stateAlice "9998" "sockB" none 0 =
      (.error "Room not found", stateAlice) ∧
    joinRoom cfgOneUser stateAlice "1234" "sockB" none 0 =
      (.error "Room is full", stateAlice) := by
  refine ⟨by decide, ?_, ?_⟩
  · exact (C7_join_notfound_full defaultConfig stateAlice "9998" "sockB" none 0).1
      (by decide)
  · exact (C7_join_notfound_full cfgOneUser stateAlice "1234" "sockB" none 0).2
      ⟨"1234", [("sockAAAA", ⟨"user_sockAAAA", "Alice"⟩)], 0, []⟩
      (by decide) (by decide) (by decide)

/-! ## Join idempotence (claim C2) -/

/-- Counterexample to C2 as stated: with a member ceiling of 1, socket
`sockAAAA` is already the sole member of room `1234`, yet a second
`joinRoom` for it fails with `Room is full` instead of returning the
existing participant — the capacity check runs before the already-a-member
check. -/
theorem C2_counterexample :
    lookupA ((lookupA stateAlice.rooms "1234").getD ⟨"", [], 0, []⟩).users "sockAAAA" =
      some ⟨"user_sockAAAA", "Alice"⟩ ∧
    cfgOneUser.ROOM_MAX_USERS > 0 ∧
    joinRoom cfgOneUser stateAlice "1234" "sockAAAA" none 0 =
      (.error "Room is full", stateAlice) := by
  exact ⟨by decide, by decide, rfl⟩

/-- C2 amended: for a room *below its member ceiling* (or with an unlimited
ceiling), `joinRoom` for a connection already a member of that room returns
the existing participant and leaves the room's membership unchanged. -/
theorem C2_join_idempotent (cfg : Config) (s : RMState) (roomId socketId : String)
    (preferredName : Option String) (nameRand : ℚ) (room : Room) (existing : UserInfo)
    (hroom : lookupA s.rooms roomId = some room)
    (hmem : lookupA room.users socketId = some existing)
    (hcap : ¬ (cfg.ROOM_MAX_USERS > 0 ∧ room.users.length ≥ cfg.ROOM_MAX_USERS)) :
    (joinRoom cfg s roomId socketId preferredName nameRand).1 = .ok existing ∧
    ∃ room', lookupA (joinRoom cfg s roomId socketId preferredName nameRand).2.rooms
        roomId = some room' ∧ room'.users = room.users := by
  simp only [joinRoom, hroom, if_neg hcap, hmem]
  cases hus : lookupA (cancelRoomCleanup s roomId).userSockets socketId with
  | none =>
    refine ⟨trivial, room, ?_, rfl⟩
    simpa only [cancelRoomCleanup_rooms] using hroom
  | some e =>
    by_cases he : e.roomId ≠ roomId
    · simp only [hus, if_pos he]
      refine ⟨trivial, room, ?_, rfl⟩
      rw [leaveRoom_rooms_ne cfg _ _ _ _ (Ne.symm he), cancelRoomCleanup_rooms]
      exact hroom
    · simp only [hus, if_neg he]
      refine ⟨trivial, room, ?_, rfl⟩
      simpa only [cancelRoomCleanup_rooms] using hroom

/-- Witness for the amended C2: under the default ceiling of 50, re-joining
room `1234` as its existing member returns the existing participant and
leaves the membership untouched. -/
theorem C2_join_idempotent_witness :
    lookupA stateAlice.rooms "1234" =
      some ⟨"1234", [("sockAAAA", ⟨"user_sockAAAA", "Alice"⟩)], 0, []⟩ ∧
    (joinRoom defaultConfig stateAlice "1234" "sockAAAA" none 0).1 =
      .ok ⟨"user_sockAAAA", "Alice"⟩ ∧
    (∃ room', lookupA (joinRoom defaultConfig stateAlice "1234" "sockAAAA" none 0).2.rooms
        "1234" = some room' ∧
      room'.users = [("sockAAAA", (⟨"user_sockAAAA", "Alice"⟩ : UserInfo))]) := by
  have h := C2_join_idempotent defaultConfig stateAlice "1234" "sockAAAA" none 0
    ⟨"1234", [("sockAAAA", ⟨"user_sockAAAA", "Alice"⟩)], 0, []⟩
    ⟨"user_sockAAAA", "Alice"⟩ (by decide) (by decide) (by decide)
  exact ⟨by decide, h.1, h.2⟩

/-! ## Room code generation (claim C4) -/

theorem sampleCode_lower (r : ℚ) (h0 : 0 ≤ r) : (1000 : Int) ≤ sampleCode r := by
  rw [sampleCode, Int.le_floor]
  push_cast
  nlinarith

theorem sampleCode_upper (r : ℚ) (h1 : r < 1) : sampleCode r ≤ 9999 := by
  have h : sampleCode r < 10000 := by
    rw [sampleCode, Int.floor_lt]
    push_cast
    nlinarith
  omega

theorem sampleCode_attains_top : sampleCode (8999 / 9000) = 9999 := by
  rw [sampleCode, Int.floor_eq_iff]
  norm_num

theorem tdc_step (f n : Nat) (ds : List Char) (h : 10 ≤ n) :
    Nat.toDigitsCore 10 (f + 1) n ds =
      Nat.toDigitsCore 10 f (n / 10) (Nat.digitChar (n % 10) :: ds) := by
  have h10 : n / 10 ≠ 0 := by omega
  simp only [Nat.toDigitsCore]
  simp [h10]

theorem tdc_last (f n : Nat) (ds : List Char) (h0 : 0 < n) (h : n < 10) :
    Nat.toDigitsCore 10 (f + 1) n ds = Nat.digitChar (n % 10) :: ds := by
  have h10 : n / 10 = 0 := by omega
  simp only [Nat.toDigitsCore]
  simp [h10]

theorem tdc_four (f n : Nat) (ds : List Char) (h1 : 1000 ≤ n) (h2 : n ≤ 9999) :
    Nat.toDigitsCore 10 (f + 4) n ds =
      Nat.digitChar (n / 1000 % 10) :: Nat.digitChar (n / 100 % 10) ::
      Nat.digitChar (n / 10 % 10) :: Nat.digitChar (n % 10) :: ds := by
  rw [(rfl : f + 4 = (f + 3) + 1), tdc_step _ _ _ (by omega)]
  rw [(rfl : f + 3 = (f + 2) + 1), tdc_step _ _ _ (by omega)]
  rw [(rfl : f + 2 = (f + 1) + 1), tdc_step _ _ _ (by omega)]
  rw [tdc_last _ _ _ (by omega) (by omega)]
  have d3 : n / 10 / 10 / 10 = n / 1000 := by omega
  have d2 : n / 10 / 10 = n / 100 := by omega
  rw [d3, d2]

theorem toDigits_of_four_digit (n : Nat) (h1 : 1000 ≤ n) (h2 : n ≤ 9999) :
    Nat.toDigits 10 n =
      [Nat.digitChar (n / 1000 % 10), Nat.digitChar (n / 100 % 10),
       Nat.digitChar (n / 10 % 10), Nat.digitChar (n % 10)] := by
  have e1 : Nat.toDigits 10 n = Nat.toDigitsCore 10 (n + 1) n [] := rfl
  rw [e1, (by omega : n + 1 = (n - 3) + 4), tdc_four _ _ _ h1 h2]

theorem digitChar_isDigit (d : Nat) (h : d < 10) : (Nat.digitChar d).isDigit = true := by
  interval_cases d <;> decide

theorem repr_isFourDigit (n : Nat) (h1 : 1000 ≤ n) (h2 : n ≤ 9999) :
    isFourDigitCode (Nat.repr n) = true := by
  have e1 : Nat.repr n = (Nat.toDigits 10 n).asString := rfl
  rw [isFourDigitCode, e1, toDigits_of_four_digit n h1 h2]
  have hall : ∀ m : Nat, (Nat.digitChar (m % 10)).isDigit = true := fun m =>
    digitChar_isDigit _ (Nat.mod_lt _ (by omega))
  simp [List.asString, String.length, hall]

theorem int_toString_of_nonneg (i : Int) (h : 0 ≤ i) : toString i = Nat.repr i.toNat := by
  cases i with
  | ofNat m => rfl
  | negSucc m => exact absurd h (not_le.mpr (Int.negSucc_lt_zero m))

theorem sampleCodeStr_isFourDigit (r : ℚ) (h0 : 0 ≤ r) (h1 : r < 1) :
    isFourDigitCode (sampleCodeStr r) = true := by
  have hlo := sampleCode_lower r h0
  have hhi := sampleCode_upper r h1
  rw [sampleCodeStr, int_toString_of_nonneg _ (by omega)]
  refine repr_isFourDigit _ (by omega) (by omega)

theorem genCodeLoop_ok (rooms : List (String × Room)) (rands : Nat → ℚ) :
    ∀ (fuel attempts : Nat) (c : String), 100 - attempts ≤ fuel →
      genCodeLoop rooms rands attempts = .ok c →
      (∃ j, c = sampleCodeStr (rands j)) ∧ hasA rooms c = false := by
  intro fuel
  induction fuel with
  | zero =>
    intro attempts c hle h
    rw [genCodeLoop] at h
    have h100 : 100 ≤ attempts + 1 := by omega
    simp [h100] at h
  | succ fuel ih =>
    intro attempts c hle h
    rw [genCodeLoop] at h
    by_cases h100 : 100 ≤ attempts + 1
    · simp [h100] at h
    · simp only [if_neg h100] at h
      by_cases hhas : hasA rooms (sampleCodeStr (rands attempts)) = true
      · rw [if_pos hhas] at h
        exact ih (attempts + 1) c (by omega) h
      · rw [if_neg hhas] at h
        simp only [Except.ok.injEq] at h
        subst h
        exact ⟨⟨attempts, rfl⟩, by simpa using hhas⟩

theorem genCodeLoop_exhaust (rooms : List (String × Room)) (rands : Nat → ℚ) :
    ∀ (fuel attempts : Nat), 99 - attempts ≤ fuel →
      (∀ j, attempts ≤ j → j < 99 → hasA rooms (sampleCodeStr (rands j)) = true) →
      genCodeLoop rooms rands attempts =
        .error "Unable to generate unique room code. Server at capacity." := by
  intro fuel
  induction fuel with
  | zero =>
    intro attempts hle hall
    rw [genCodeLoop]
    have h100 : 100 ≤ attempts + 1 := by omega
    simp [h100]
  | succ fuel ih =>
    intro attempts hle hall
    rw [genCodeLoop]
    by_cases h100 : 100 ≤ attempts + 1
    · simp [h100]
    · simp only [if_neg h100]
      rw [if_pos (hall attempts (by omega) (by omega))]
      exact ih (attempts + 1) (by omega) (fun j hj1 hj2 => hall j (by omega) hj2)

/-- Counterexample to C4 as stated: the claim samples codes from
`[1000,9999)`, but with `Math.random()` returning `8999/9000` the sampled
code is exactly 9999 — outside the half-open range — and `createRoom`
succeeds returning room code `"9999"`. -/
theorem C4_counterexample :
    (0 : ℚ) ≤ 8999 / 9000 ∧ (8999 / 9000 : ℚ) < 1 ∧
    createRoom defaultConfig emptyRM (fun _ => 8999 / 9000) 0 =
      (.ok ⟨"9999", [], 0, []⟩, ⟨[("9999", ⟨"9999", [], 0, []⟩)], [], []⟩) ∧
    ¬ sampleCode (8999 / 9000) < 9999 := by
  have hstr : sampleCodeStr (8999 / 9000 : ℚ) = "9999" := by
    rw [sampleCodeStr, sampleCode_attains_top]
    decide
  refine ⟨by norm_num, by norm_num, ?_, by rw [sampleCode_attains_top]; omega⟩
  have hgen : generateRoomCode emptyRM (fun _ => (8999 / 9000 : ℚ)) = .ok "9999" := by
    rw [generateRoomCode, genCodeLoop]
    simp [hstr, hasA, lookupA, emptyRM]
  rw [createRoom]
  simp only [defaultConfig, emptyRM] at hgen ⊢
  rw [if_neg (by simp), hgen]
  simp [insertA]

/-- C4 amended: `createRoom` fails fast with the capacity error when the
global room ceiling is met; otherwise, on success it returns a room whose
code is a 4-digit string whose numeric value was sampled from the *closed*
range `[1000, 9999]` and which is unique among currently-live rooms, and
when the first 99 samples all collide it fails with the code-capacity error
rather than looping forever (the generation loop is a total function with a
100-attempt ceiling). -/
theorem C4_create_room (cfg : Config) (s : RMState) (rands : Nat → ℚ) (now : Int)
    (hr : ∀ i, 0 ≤ rands i ∧ rands i < 1) (hnd : keysNodup s.rooms) :
    (cfg.ROOM_MAX_ROOMS > 0 → s.rooms.length ≥ cfg.ROOM_MAX_ROOMS →
      createRoom cfg s rands now = (.error "Server at capacity. Please try again later.", s)) ∧
    (∀ room s', createRoom cfg s rands now = (.ok room, s') →
      isFourDigitCode room.id = true ∧
      (∃ j, room.id = sampleCodeStr (rands j) ∧
        1000 ≤ sampleCode (rands j) ∧ sampleCode (rands j) ≤ 9999) ∧
      lookupA s.rooms room.id = none ∧
      s' = ⟨insertA s.rooms room.id room, s.userSockets, s.cleanupTimers⟩ ∧
      keysNodup s'.rooms) ∧
    (¬ (cfg.ROOM_MAX_ROOMS > 0 ∧ s.rooms.length ≥ cfg.ROOM_MAX_ROOMS) →
      (∀ j, j < 99 → hasA s.rooms (sampleCodeStr (rands j)) = true) →
      createRoom cfg s rands now =
        (.error "Unable to generate unique room code. Server at capacity.", s)) := by
  refine ⟨?_, ?_, ?_⟩
  · intro hmax hlen
    rw [createRoom, if_pos (And.intro hmax hlen)]
  · intro room s' h
    rw [createRoom] at h
    by_cases hcap : cfg.ROOM_MAX_ROOMS > 0 ∧ s.rooms.length ≥ cfg.ROOM_MAX_ROOMS
    · rw [if_pos hcap] at h
      simp at h
    · rw [if_neg hcap] at h
      cases hgen : generateRoomCode s rands with
      | error e =>
        rw [hgen] at h
        simp at h
      | ok code =>
        rw [hgen] at h
        simp only [Prod.mk.injEq, Except.ok.injEq] at h
        obtain ⟨hroomEq, hs'⟩ := h
        obtain ⟨⟨j, hj⟩, hfresh⟩ :=
          genCodeLoop_ok s.rooms rands 100 0 code (by omega) hgen
        have hfresh' : lookupA s.rooms code = none := by
          by_contra hne
          rw [hasA] at hfresh
          cases hl : lookupA s.rooms code with
          | none => exact hne hl
          | some v => rw [hl] at hfresh; simp at hfresh
        have hid : room.id = code := by rw [← hroomEq]
        refine ⟨?_, ⟨j, by rw [hid, hj],
            sampleCode_lower _ (hr j).1, sampleCode_upper _ (hr j).2⟩, ?_, ?_, ?_⟩
        · rw [hid, hj]
          exact sampleCodeStr_isFourDigit _ (hr j).1 (hr j).2
        · rw [hid]; exact hfresh'
        · rw [← hs', hid, ← hroomEq]
        · rw [← hs']
          exact keysNodup_insertA _ _ _ hnd
  · intro hcap hall
    rw [createRoom, if_neg hcap, generateRoomCode,
      genCodeLoop_exhaust s.rooms rands 99 0 (by omega) (fun j hj1 hj2 => hall j hj2)]

/-- Witness for the amended C4: with `Math.random()` always returning 0,
`createRoom` on the empty state succeeds with the fresh 4-digit code
`"1000"`. -/
theorem C4_create_room_witness :
    createRoom defaultConfig emptyRM (fun _ => (0 : ℚ)) 0 =
      (.ok ⟨"1000", [], 0, []⟩, ⟨[("1000", ⟨"1000", [], 0, []⟩)], [], []⟩) ∧
    isFourDigitCode "1000" = true ∧
    lookupA emptyRM.rooms "1000" = none := by
  have hsc : sampleCode (0 : ℚ) = 1000 := by
    rw [sampleCode]
    norm_num
  have hstr : sampleCodeStr (0 : ℚ) = "1000" := by
    rw [sampleCodeStr, hsc]
    decide
  have hcr : createRoom defaultConfig emptyRM (fun _ => (0 : ℚ)) 0 =
      (.ok ⟨"1000", [], 0, []⟩, ⟨[("1000", ⟨"1000", [], 0, []⟩)], [], []⟩) := by
    have hgen : generateRoomCode emptyRM (fun _ => (0 : ℚ)) = .ok "1000" := by
      rw [generateRoomCode, genCodeLoop]
      simp [hstr, hasA, lookupA, emptyRM]
    rw [createRoom]
    simp only [defaultConfig, emptyRM] at hgen ⊢
    rw [if_neg (by simp), hgen]
    simp [insertA]
  obtain ⟨h4, -, hfresh, -, -⟩ :=
    (C4_create_room defaultConfig emptyRM (fun _ => (0 : ℚ)) 0
      (fun i => by norm_num) keysNodup_nil).2.1
      ⟨"1000", [], 0, []⟩ ⟨[("1000", ⟨"1000", [], 0, []⟩)], [], []⟩ hcr
  exact ⟨hcr, h4, hfresh⟩

/-! ## Message sanitization (claim C6) -/

theorem mem_replaceChar (c : Char) (rep : List Char) (l : List Char) (d : Char)
    (hd : d ∈ replaceChar c rep l) : d ∈ rep ∨ (d ∈ l ∧ d ≠ c) := by
  rw [replaceChar, List.mem_flatMap] at hd
  obtain ⟨x, hx, hdx⟩ := hd
  by_cases hxc : x = c
  · rw [if_pos hxc] at hdx
    exact Or.inl hdx
  · rw [if_neg hxc] at hdx
    simp only [List.mem_singleton] at hdx
    subst hdx
    exact Or.inr ⟨hx, hxc⟩

theorem all_replaceChar (c : Char) (rep : List Char) (l : List Char)
    (P : Char → Prop) (hl : ∀ d ∈ l, P d) (hrep : ∀ d ∈ rep, P d) :
    ∀ d ∈ replaceChar c rep l, P d := by
  intro d hd
  rcases mem_replaceChar c rep l d hd with h | h
  · exact hrep d h
  · exact hl d h.1

/-- The per-character HTML escape equivalent to the five sequential global
replaces (later replacements never hit characters introduced by earlier
ones). -/
def escChar (c : Char) : List Char :=
  if c = '&' then "&amp;".toList
  else if c = '<' then "&lt;".toList
  else if c = '>' then "&gt;".toList
  else if c = quoteChar then "&quot;".toList
  else if c = aposChar then "&#x27;".toList
  else [c]

theorem escapeHtmlChain_append (l1 l2 : List Char) :
    escapeHtmlChain (l1 ++ l2) = escapeHtmlChain l1 ++ escapeHtmlChain l2 := by
  simp [escapeHtmlChain, replaceChar, List.flatMap_append]

theorem escapeHtmlChain_cons (x : Char) (t : List Char) :
    escapeHtmlChain (x :: t) = escChar x ++ escapeHtmlChain t := by
  have hsplit := escapeHtmlChain_append [x] t
  simp only [List.singleton_append] at hsplit
  rw [hsplit]
  congr 1
  by_cases h1 : x = '&'
  · subst h1; decide
  · by_cases h2 : x = '<'
    · subst h2; decide
    · by_cases h3 : x = '>'
      · subst h3; decide
      · by_cases h4 : x = quoteChar
        · subst h4; decide
        · by_cases h5 : x = aposChar
          · subst h5; decide
          · simp [escapeHtmlChain, replaceChar, escChar, h1, h2, h3, h4, h5]

theorem escapeHtmlChain_eq_flatMap (l : List Char) :
    escapeHtmlChain l = l.flatMap escChar := by
  induction l with
  | nil => decide
  | cons x t ih => rw [escapeHtmlChain_cons, List.flatMap_cons, ih]

/-- Whether the list begins with the body of one of the five HTML entities
emitted by the sanitizer (`amp; lt; gt; quot; #x27;`). -/
def entityHead (l : List Char) : Bool :=
  l.take 4 = ['a', 'm', 'p', ';'] || l.take 3 = ['l', 't', ';'] ||
  l.take 3 = ['g', 't', ';'] || l.take 5 = ['q', 'u', 'o', 't', ';'] ||
  l.take 5 = ['#', 'x', '2', '7', ';']

/-- Every ampersand in the list is immediately followed by the body of one
of the five HTML entities, i.e. every `&` is part of an escaped entity. -/
def ampOk : List Char → Bool
  | [] => true
  | c :: rest => (if c = '&' then entityHead rest else true) && ampOk rest

theorem ampOk_flatMap_escChar (l : List Char) : ampOk (l.flatMap escChar) = true := by
  induction l with
  | nil => decide
  | cons x t ih =>
    rw [List.flatMap_cons]
    by_cases h1 : x = '&'
    · subst h1
      rw [(by decide : escChar '&' = ['&', 'a', 'm', 'p', ';'])]
      simp [ampOk, entityHead, ih]
    · by_cases h2 : x = '<'
      · subst h2
        rw [(by decide : escChar '<' = ['&', 'l', 't', ';'])]
        simp [ampOk, entityHead, ih]
      · by_cases h3 : x = '>'
        · subst h3
          rw [(by decide : escChar '>' = ['&', 'g', 't', ';'])]
          simp [ampOk, entityHead, ih]
        · by_cases h4 : x = quoteChar
          · subst h4
            rw [(by decide : escChar quoteChar = ['&', 'q', 'u', 'o', 't', ';'])]
            simp [ampOk, entityHead, ih]
          · by_cases h5 : x = aposChar
            · subst h5
              rw [(by decide : escChar aposChar = ['&', '#', 'x', '2', '7', ';'])]
              simp [ampOk, entityHead, ih]
            · rw [(by simp [escChar, h1, h2, h3, h4, h5] : escChar x = [x])]
              simp [ampOk, h1, ih]

theorem mem_escChar (x d : Char) (hd : d ∈ escChar x) :
    d ∈ "&amp;".toList ∨ d ∈ "&lt;".toList ∨ d ∈ "&gt;".toList ∨
    d ∈ "&quot;".toList ∨ d ∈ "&#x27;".toList ∨
    (d = x ∧ ¬ x = '&' ∧ ¬ x = '<' ∧ ¬ x = '>' ∧ ¬ x = quoteChar ∧ ¬ x = aposChar) := by
  unfold escChar at hd
  by_cases h1 : x = '&'
  · rw [if_pos h1] at hd
    exact Or.inl hd
  · rw [if_neg h1] at hd
    by_cases h2 : x = '<'
    · rw [if_pos h2] at hd
      exact Or.inr (Or.inl hd)
    · rw [if_neg h2] at hd
      by_cases h3 : x = '>'
      · rw [if_pos h3] at hd
        exact Or.inr (Or.inr (Or.inl hd))
      · rw [if_neg h3] at hd
        by_cases h4 : x = quoteChar
        · rw [if_pos h4] at hd
          exact Or.inr (Or.inr (Or.inr (Or.inl hd)))
        · rw [if_neg h4] at hd
          by_cases h5 : x = aposChar
          · rw [if_pos h5] at hd
            exact Or.inr (Or.inr (Or.inr (Or.inr (Or.inl hd))))
          · rw [if_neg h5] at hd
            simp only [List.mem_singleton] at hd
            exact Or.inr (Or.inr (Or.inr (Or.inr (Or.inr ⟨hd, h1, h2, h3, h4, h5⟩))))

theorem escapeHtmlChain_no_specials (l : List Char)
    (hctl : ∀ c ∈ l, isCtlMsg c = false) :
    '<' ∉ escapeHtmlChain l ∧ '>' ∉ escapeHtmlChain l ∧
    quoteChar ∉ escapeHtmlChain l ∧ aposChar ∉ escapeHtmlChain l ∧
    (∀ c ∈ escapeHtmlChain l, isCtlMsg c = false) ∧
    ampOk (escapeHtmlChain l) = true := by
  rw [escapeHtmlChain_eq_flatMap]
  refine ⟨?_, ?_, ?_, ?_, ?_, ampOk_flatMap_escChar l⟩
  · intro hd
    rw [List.mem_flatMap] at hd
    obtain ⟨x, hx, hdx⟩ := hd
    rcases mem_escChar x _ hdx with h | h | h | h | h | h
    · exact absurd h (by decide)
    · exact absurd h (by decide)
    · exact absurd h (by decide)
    · exact absurd h (by decide)
    · exact absurd h (by decide)
    · exact h.2.2.1 h.1.symm
  · intro hd
    rw [List.mem_flatMap] at hd
    obtain ⟨x, hx, hdx⟩ := hd
    rcases mem_escChar x _ hdx with h | h | h | h | h | h
    · exact absurd h (by decide)
    · exact absurd h (by decide)
    · exact absurd h (by decide)
    · exact absurd h (by decide)
    · exact absurd h (by decide)
    · exact h.2.2.2.1 h.1.symm
  · intro hd
    rw [List.mem_flatMap] at hd
    obtain ⟨x, hx, hdx⟩ := hd
    rcases mem_escChar x _ hdx with h | h | h | h | h | h
    · exact absurd h (by decide)
    · exact absurd h (by decide)
    · exact absurd h (by decide)
    · exact absurd h (by decide)
    · exact absurd h (by decide)
    · exact h.2.2.2.2.1 h.1.symm
  · intro hd
    rw [List.mem_flatMap] at hd
    obtain ⟨x, hx, hdx⟩ := hd
    rcases mem_escChar x _ hdx with h | h | h | h | h | h
    · exact absurd h (by decide)
    · exact absurd h (by decide)
    · exact absurd h (by decide)
    · exact absurd h (by decide)
    · exact absurd h (by decide)
    · exact h.2.2.2.2.2 h.1.symm
  · intro c hc
    rw [List.mem_flatMap] at hc
    obtain ⟨x, hx, hcx⟩ := hc
    rcases mem_escChar x _ hcx with h | h | h | h | h | h
    · exact (by decide : ∀ d ∈ "&amp;".toList, isCtlMsg d = false) c h
    · exact (by decide : ∀ d ∈ "&lt;".toList, isCtlMsg d = false) c h
    · exact (by decide : ∀ d ∈ "&gt;".toList, isCtlMsg d = false) c h
    · exact (by decide : ∀ d ∈ "&quot;".toList, isCtlMsg d = false) c h
    · exact (by decide : ∀ d ∈ "&#x27;".toList, isCtlMsg d = false) c h
    · rw [h.1]
      exact hctl x hx

set_option maxHeartbeats 1000000 in
/-- Counterexample to C6 as stated: `"a\tb"` is accepted and its sanitized
form still contains the TAB control character (code point 9 < 32) — the
strip class deliberately leaves TAB, LF and CR in place. -/
theorem C6_counterexample :
    validateMessage defaultConfig (.str "a\tb") = .valid "a\tb" ∧
    Char.ofNat 9 ∈ "a\tb".toList ∧ (Char.ofNat 9).toNat < 32 := by
  decide

set_option maxHeartbeats 1600000 in
/-- C6 amended: `validateMessage` rejects non-string/falsy input,
empty-after-trim input and over-length input with the specific error
reasons; every accepted input yields a sanitized string that is the HTML
escape of the control-stripped trim of the input, containing no character
of the stripped control class (all control characters except TAB, LF, CR),
no raw `<`, `>`, `"` or single quote, and with every `&` opening one of the
five HTML entities; and `send-message` stores and broadcasts exactly this
sanitized form, not the original. -/
theorem C6_validate_and_sanitize (cfg : Config) :
    (∀ b, validateMessage cfg (.other b) = .invalid "Message cannot be empty") ∧
    validateMessage cfg (.str "") = .invalid "Message cannot be empty" ∧
    (∀ s, ¬ s = "" → (jsTrimList s.toList).length < cfg.MESSAGE_MIN_LENGTH →
      validateMessage cfg (.str s) = .invalid "Message too short") ∧
    (∀ s, ¬ s = "" → ¬ (jsTrimList s.toList).length < cfg.MESSAGE_MIN_LENGTH →
      (jsTrimList s.toList).length > cfg.MESSAGE_MAX_LENGTH →
      validateMessage cfg (.str s) =
        .invalid ("Message too long (max " ++ toString cfg.MESSAGE_MAX_LENGTH ++
          " characters)")) ∧
    (∀ v sanitized, validateMessage cfg v = .valid sanitized →
      (∃ s, v = .str s ∧
        sanitized.toList =
          escapeHtmlChain ((jsTrimList s.toList).filter (fun c => ¬ isCtlMsg c))) ∧
      '<' ∉ sanitized.toList ∧ '>' ∉ sanitized.toList ∧
      quoteChar ∉ sanitized.toList ∧ aposChar ∉ sanitized.toList ∧
      (∀ c ∈ sanitized.toList, isCtlMsg c = false) ∧
      ampOk sanitized.toList = true) ∧
    (∀ (rl : RLState) (rm : RMState) (socketId roomId : String) (contentV : JSVal)
        (now : Int) (msgRand : String) (sanitized : String) (u : SockEntry),
      isFourDigitCode roomId = true →
      (RateLimiter.check cfg.RATE_LIMIT_MAX_MESSAGES cfg.RATE_LIMIT_WINDOW_MS
        rl socketId now).1.allowed = true →
      lookupA rm.userSockets socketId = some u → u.roomId = roomId →
      validateMessage cfg contentV = .valid sanitized →
      sendMessageHandler cfg rl rm socketId (some (.str roomId, contentV)) now msgRand =
        (⟨true, none, none, none⟩,
         (RateLimiter.check cfg.RATE_LIMIT_MAX_MESSAGES cfg.RATE_LIMIT_WINDOW_MS
           rl socketId now).2,
         addMessage cfg rm roomId
           ⟨"msg_" ++ toString now ++ "_" ++ msgRand, "user", u.id, u.name, sanitized, now⟩,
         [Emit.messageEv roomId
           ⟨"msg_" ++ toString now ++ "_" ++ msgRand, "user", u.id, u.name, sanitized, now⟩])) := by
  refine ⟨?_, ?_, ?_, ?_, ?_, ?_⟩
  · intro b
    rfl
  · rfl
  · intro s hs hshort
    rw [validateMessage, if_neg hs, if_pos hshort]
  · intro s hs hshort hlong
    rw [validateMessage, if_neg hs, if_neg hshort, if_pos hlong]
  · intro v sanitized h
    cases v with
    | other b => simp [validateMessage] at h
    | str s =>
      rw [validateMessage] at h
      by_cases hs : s = ""
      · rw [if_pos hs] at h
        simp at h
      · rw [if_neg hs] at h
        by_cases hshort : (jsTrimList s.toList).length < cfg.MESSAGE_MIN_LENGTH
        · rw [if_pos hshort] at h
          simp at h
        · rw [if_neg hshort] at h
          by_cases hlong : (jsTrimList s.toList).length > cfg.MESSAGE_MAX_LENGTH
          · rw [if_pos hlong] at h
            simp at h
          · rw [if_neg hlong] at h
            simp only [VResult.valid.injEq] at h
            subst h
            have hctl : ∀ c ∈ (jsTrimList s.toList).filter (fun c => ¬ isCtlMsg c),
                isCtlMsg c = false := by
              intro c hc
              rw [List.mem_filter] at hc
              simpa using hc.2
            obtain ⟨hlt, hgt, hq, ha, hc, hamp⟩ :=
              escapeHtmlChain_no_specials _ hctl
            exact ⟨⟨s, rfl, rfl⟩, hlt, hgt, hq, ha, hc, hamp⟩
  · intro rl rm socketId roomId contentV now msgRand sanitized u h4 hall hu hroom hv
    rw [sendMessageHandler, getUserInfo]
    simp [h4, hall, hu, hroom, hv]

set_option maxHeartbeats 1000000 in
/-- Witness for the amended C6: whitespace-only input is rejected;
`"<script>"` is accepted with sanitized form `"&lt;script&gt;"`, free of
raw angle brackets and with every ampersand opening an entity; and
`send-message` stores and broadcasts the sanitized form of `"<b>"`. -/
theorem C6_validate_and_sanitize_witness :
    validateMessage defaultConfig (.str "   ") = .invalid "Message too short" ∧
    validateMessage defaultConfig (.str "<script>") = .valid "&lt;script&gt;" ∧
    '<' ∉ "&lt;script&gt;".toList ∧ '>' ∉ "&lt;script&gt;".toList ∧
    ampOk "&lt;script&gt;".toList = true ∧
    sendMessageHandler defaultConfig ⟨[]⟩ stateAlice "sockAAAA"
        (some (.str "1234", .str "<b>")) 5 "r1" =
      (⟨true, none, none, none⟩,
       (RateLimiter.check defaultConfig.RATE_LIMIT_MAX_MESSAGES
         defaultConfig.RATE_LIMIT_WINDOW_MS ⟨[]⟩ "sockAAAA" 5).2,
       addMessage defaultConfig stateAlice "1234"
         ⟨"msg_" ++ toString (5 : Int) ++ "_" ++ "r1", "user", "user_sockAAAA", "Alice",
          "&lt;b&gt;", 5⟩,
       [Emit.messageEv "1234"
         ⟨"msg_" ++ toString (5 : Int) ++ "_" ++ "r1", "user", "user_sockAAAA", "Alice",
          "&lt;b&gt;", 5⟩]) := by
  have h := C6_validate_and_sanitize defaultConfig
  have hshort := h.2.2.1 "   " (by decide) (by decide)
  have hv : validateMessage defaultConfig (.str "<script>") = .valid "&lt;script&gt;" := by
    decide
  obtain ⟨-, hlt, hgt, -, -, -, hamp⟩ :=
    h.2.2.2.2.1 (.str "<script>") "&lt;script&gt;" hv
  have hsend := h.2.2.2.2.2 ⟨[]⟩ stateAlice "sockAAAA" "1234" (.str "<b>") 5 "r1"
    "&lt;b&gt;" ⟨"1234", "user_sockAAAA", "Alice"⟩
    (by decide) (by decide) (by decide) (by decide) (by decide)
  exact ⟨hshort, hv, hlt, hgt, hamp, hsend⟩

/-! ## Message-rate budget consumed before membership/content checks
(claim C10) -/

/-- C10: `send-message` consumes the sender's message-rate budget before the
membership and content checks, so a call that fails with `Not in room` or
with a validation error (but was itself allowed by the limiter) increments
the stored request count for the window exactly as a successful send does. -/
theorem C10_budget_before_checks (cfg : Config) (rl : RLState) (rm1 rm2 rm3 : RMState)
    (socketId roomId : String) (contentV1 contentV2 contentV3 : JSVal)
    (now : Int) (msgRand : String) (c : RLClient) (u2 u3 : SockEntry)
    (e : String) (sanitized : String)
    (h4 : isFourDigitCode roomId = true)
    (hc : lookupA rl.clients socketId = some c)
    (hw : now - c.windowStart < cfg.RATE_LIMIT_WINDOW_MS)
    (hcount : c.count < cfg.RATE_LIMIT_MAX_MESSAGES)
    (hnot : lookupA rm1.userSockets socketId = none)
    (hu2 : lookupA rm2.userSockets socketId = some u2) (hu2r : ¬ u2.roomId = roomId)
    (hu3 : lookupA rm3.userSockets socketId = some u3) (hu3r : u3.roomId = roomId)
    (hv2 : validateMessage cfg contentV2 = .invalid e)
    (hv3 : validateMessage cfg contentV3 = .valid sanitized) :
    ((sendMessageHandler cfg rl rm1 socketId (some (.str roomId, contentV1)) now
        msgRand).1 = CbResult.fail "Not in room" ∧
      (sendMessageHandler cfg rl rm1 socketId (some (.str roomId, contentV1)) now
        msgRand).2.1 = ⟨insertA rl.clients socketId ⟨c.count + 1, c.windowStart⟩⟩) ∧
    ((sendMessageHandler cfg rl rm2 socketId (some (.str roomId, contentV2)) now
        msgRand).1 = CbResult.fail "Not in room" ∧
      (sendMessageHandler cfg rl rm2 socketId (some (.str roomId, contentV2)) now
        msgRand).2.1 = ⟨insertA rl.clients socketId ⟨c.count + 1, c.windowStart⟩⟩) ∧
    ((sendMessageHandler cfg rl rm3 socketId (some (.str roomId, contentV2)) now
        msgRand).1 = CbResult.fail e ∧
      (sendMessageHandler cfg rl rm3 socketId (some (.str roomId, contentV2)) now
        msgRand).2.1 = ⟨insertA rl.clients socketId ⟨c.count + 1, c.windowStart⟩⟩) ∧
    ((sendMessageHandler cfg rl rm3 socketId (some (.str roomId, contentV3)) now
        msgRand).1.success = true ∧
      (sendMessageHandler cfg rl rm3 socketId (some (.str roomId, contentV3)) now
        msgRand).2.1 = ⟨insertA rl.clients socketId ⟨c.count + 1, c.windowStart⟩⟩) := by
  have hstep := check_inWindow_allowed cfg.RATE_LIMIT_MAX_MESSAGES
    cfg.RATE_LIMIT_WINDOW_MS rl socketId now c hc hw hcount
  refine ⟨?_, ?_, ?_, ?_⟩
  · rw [sendMessageHandler, getUserInfo]
    simp [h4, hstep, hnot]
  · rw [sendMessageHandler, getUserInfo]
    simp [h4, hstep, hu2, hu2r]
  · rw [sendMessageHandler, getUserInfo]
    simp [h4, hstep, hu3, hu3r, hv2]
  · rw [sendMessageHandler, getUserInfo]
    simp [h4, hstep, hu3, hu3r, hv3]

/-- A state whose reverse index places `sockAAAA` in room `5678`. -/
def stateAlice5678 : RMState :=
  ⟨[], [("sockAAAA", ⟨"5678", "user_sockAAAA", "Alice"⟩)], []⟩

/-- Witness for C10: socket `sockAAAA` has used 3 of 10 requests in the
current window; a send to room `5678` (not its room) fails with
`Not in room` yet the stored count moves to 4, exactly as for a successful
send to its own room `1234`. -/
theorem C10_budget_before_checks_witness :
    (sendMessageHandler defaultConfig ⟨[("sockAAAA", ⟨3, 0⟩)]⟩ stateAlice "sockAAAA"
        (some (.str "5678", .str "hi")) 5 "r3").1 = CbResult.fail "Not in room" ∧
    (sendMessageHandler defaultConfig ⟨[("sockAAAA", ⟨3, 0⟩)]⟩ stateAlice "sockAAAA"
        (some (.str "5678", .str "hi")) 5 "r3").2.1 =
      ⟨[("sockAAAA", ⟨4, 0⟩)]⟩ ∧
    (sendMessageHandler defaultConfig ⟨[("sockAAAA", ⟨3, 0⟩)]⟩ stateAlice "sockAAAA"
        (some (.str "1234", .str "hi")) 5 "r3").1.success = true ∧
    (sendMessageHandler defaultConfig ⟨[("sockAAAA", ⟨3, 0⟩)]⟩ stateAlice "sockAAAA"
        (some (.str "1234", .str "hi")) 5 "r3").2.1 =
      ⟨[("sockAAAA", ⟨4, 0⟩)]⟩ := by
  have h1 := C10_budget_before_checks defaultConfig ⟨[("sockAAAA", ⟨3, 0⟩)]⟩
    emptyRM stateAlice stateAlice5678 "sockAAAA" "5678" (.str "hi") (.other true)
    (.str "hi") 5 "r3" ⟨3, 0⟩ ⟨"1234", "user_sockAAAA", "Alice"⟩
    ⟨"5678", "user_sockAAAA", "Alice"⟩ "Message cannot be empty" "hi"
    (by decide) (by decide) (by decide) (by decide) (by decide) (by decide) (by decide)
    (by decide) (by decide) (by decide) (by decide)
  have h2 := C10_budget_before_checks defaultConfig ⟨[("sockAAAA", ⟨3, 0⟩)]⟩
    emptyRM stateAlice5678 stateAlice "sockAAAA" "1234" (.str "hi") (.other true)
    (.str "hi") 5 "r3" ⟨3, 0⟩ ⟨"5678", "user_sockAAAA", "Alice"⟩
    ⟨"1234", "user_sockAAAA", "Alice"⟩ "Message cannot be empty" "hi"
    (by decide) (by decide) (by decide) (by decide) (by decide) (by decide) (by decide)
    (by decide) (by decide) (by decide) (by decide)
  refine ⟨h1.2.1.1, (h1.2.1.2).trans (by decide), h2.2.2.2.1,
    (h2.2.2.2.2).trans (by decide)⟩

/-! ## Rename notices (claim C9) -/

/-- Counterexample to C9 as stated: renaming `Alice` to `Alice` (no change)
succeeds and the `user-renamed` broadcast is still emitted — only the
system message is conditional on the name actually changing. -/
theorem C9_counterexample :
    (getUserInfo stateAlice "sockAAAA").map SockEntry.name = some "Alice" ∧
    (updateUsernameHandler defaultConfig stateAlice "sockAAAA"
        (some (.str "1234", .str "Alice")) 7 "r2").1.success = true ∧
    Emit.userRenamedEv "1234" "user_sockAAAA" (some "Alice") "Alice" ∈
      (updateUsernameHandler defaultConfig stateAlice "sockAAAA"
        (some (.str "1234", .str "Alice")) 7 "r2").2.2 ∧
    ¬ (∃ m, Emit.messageEv "1234" m ∈
      (updateUsernameHandler defaultConfig stateAlice "sockAAAA"
        (some (.str "1234", .str "Alice")) 7 "r2").2.2) := by
  refine ⟨by decide, by decide, by decide, ?_⟩
  rintro ⟨m, hm⟩
  have : (updateUsernameHandler defaultConfig stateAlice "sockAAAA"
      (some (.str "1234", .str "Alice")) 7 "r2").2.2 =
      [Emit.identityEv "user_sockAAAA" "Alice",
       Emit.userRenamedEv "1234" "user_sockAAAA" (some "Alice") "Alice"] := by
    decide
  rw [this] at hm
  simp at hm

/-- C9 amended: on a successful `update-username`, the renamer is re-sent
their identity; the rename *system message* is emitted exactly when the
name actually changed (and the room id is non-empty, which the format guard
guarantees); the `user-renamed` broadcast is emitted on *every* successful
update, even when the sanitized new name equals the old one. -/
theorem C9_rename_notices (cfg : Config) (rm : RMState)
    (socketId roomId newName : String) (now : Int) (sysRand : String)
    (upd : UserInfo) (rm' : RMState)
    (h4 : isFourDigitCode roomId = true)
    (hne : ¬ newName = "")
    (hlen : ¬ (takeStr cfg.USERNAME_MAX_LENGTH (jsTrim newName)).length <
      cfg.USERNAME_MIN_LENGTH)
    (hupd : updateUserName cfg rm socketId
      (takeStr cfg.USERNAME_MAX_LENGTH (jsTrim newName)) = (some upd, rm')) :
    (updateUsernameHandler cfg rm socketId (some (.str roomId, .str newName)) now
      sysRand).1 = ⟨true, none, none, some upd.name⟩ ∧
    (updateUsernameHandler cfg rm socketId (some (.str roomId, .str newName)) now
      sysRand).2.1 = rm' ∧
    Emit.identityEv upd.id upd.name ∈
      (updateUsernameHandler cfg rm socketId (some (.str roomId, .str newName)) now
        sysRand).2.2 ∧
    (Emit.messageEv roomId
        (createSystemMessage
          (jsShowOpt ((getUserInfo rm socketId).map SockEntry.name) ++ " is now " ++
            upd.name) now sysRand) ∈
      (updateUsernameHandler cfg rm socketId (some (.str roomId, .str newName)) now
        sysRand).2.2 ↔
      (¬ roomId = "" ∧ ¬ (getUserInfo rm socketId).map SockEntry.name = some upd.name)) ∧
    Emit.userRenamedEv roomId upd.id ((getUserInfo rm socketId).map SockEntry.name)
        upd.name ∈
      (updateUsernameHandler cfg rm socketId (some (.str roomId, .str newName)) now
        sysRand).2.2 := by
  rw [updateUsernameHandler]
  simp only [h4, hne, hlen, hupd, not_true, not_false_iff, ite_true, ite_false,
    if_neg, Bool.true_eq_false, if_true]
  by_cases hcond : roomId ≠ "" ∧
      Option.map SockEntry.name (getUserInfo rm socketId) ≠ some upd.name
  · simp [hcond]
  · simp [hcond]

/-- Witness for the amended C9: renaming `Alice` to `Bob` emits the
identity, the rename system message and the `user-renamed` broadcast. -/
theorem C9_rename_notices_witness :
    (updateUsernameHandler defaultConfig stateAlice "sockAAAA"
      (some (.str "1234", .str "Bob")) 7 "r2").1 =
      ⟨true, none, none, some "Bob"⟩ ∧
    Emit.identityEv "user_sockAAAA" "Bob" ∈
      (updateUsernameHandler defaultConfig stateAlice "sockAAAA"
        (some (.str "1234", .str "Bob")) 7 "r2").2.2 ∧
    (Emit.messageEv "1234"
        (createSystemMessage
          (jsShowOpt ((getUserInfo stateAlice "sockAAAA").map SockEntry.name) ++
            " is now " ++ "Bob") 7 "r2") ∈
      (updateUsernameHandler defaultConfig stateAlice "sockAAAA"
        (some (.str "1234", .str "Bob")) 7 "r2").2.2 ↔
      (¬ "1234" = "" ∧
        ¬ (getUserInfo stateAlice "sockAAAA").map SockEntry.name = some "Bob")) ∧
    Emit.userRenamedEv "1234" "user_sockAAAA"
        ((getUserInfo stateAlice "sockAAAA").map SockEntry.name) "Bob" ∈
      (updateUsernameHandler defaultConfig stateAlice "sockAAAA"
        (some (.str "1234", .str "Bob")) 7 "r2").2.2 := by
  have h := C9_rename_notices defaultConfig stateAlice "sockAAAA" "1234" "Bob" 7 "r2"
    ⟨"user_sockAAAA", "Bob"⟩
    ⟨[("1234", ⟨"1234", [("sockAAAA", ⟨"user_sockAAAA", "Bob"⟩)], 0, []⟩)],
     [("sockAAAA", ⟨"1234", "user_sockAAAA", "Bob"⟩)], []⟩
    (by decide) (by decide) (by decide) (by decide)
  exact ⟨h.1, h.2.2.1, h.2.2.2.1, h.2.2.2.2⟩

/-! ## Handler error forwarding (claim C8) -/

/-- C8 is a code bug: the `create-room` and `join-room` catch blocks pass
`error.message` verbatim to the client callback instead of the generic
failure the file's own error-handling policy (and the spec) prescribe.  At
the failing inputs below the clients receive exactly the internal
exceptions' messages (`Server at capacity. Please try again later.` from
`createRoom`, `Room is full` from `joinRoom`) — whatever the thrown
exception is, its message reaches the wire. -/
theorem C8_handler_error_leak :
    (createRoom cfgOneRoom stateAlice (fun _ => (0 : ℚ)) 0).1 =
      .error "Server at capacity. Please try again later." ∧
    createRoomHandler cfgOneRoom ⟨[]⟩ stateAlice "sockZ" 0 (fun _ => (0 : ℚ)) =
      (CbResult.fail "Server at capacity. Please try again later.",
       ⟨[("sockZ", ⟨1, 0⟩)]⟩, stateAlice) ∧
    (joinRoom cfgOneUser stateAlice "1234" "sockZ" none 0).1 =
      .error "Room is full" ∧
    joinRoomHandler cfgOneUser ⟨[]⟩ stateAlice "sockZ" (some (.str "1234", none)) 0 0
        "r4" =
      (CbResult.fail "Room is full", ⟨[("sockZ", ⟨1, 0⟩)]⟩, stateAlice, []) := by
  refine ⟨rfl, ?_, rfl, ?_⟩ <;> rfl

/-! ## Reverse-index consistency (claim C1) -/

theorem lookupA_isSome_of_mem_keys {α : Type} (m : List (String × α)) (k : String)
    (h : k ∈ m.map Prod.fst) : (lookupA m k).isSome = true := by
  induction m with
  | nil => simp at h
  | cons kv rest ih =>
    obtain ⟨k0, w⟩ := kv
    by_cases h0 : k0 = k
    · simp [lookupA, h0]
    · rcases (by simpa using h : k = k0 ∨ k ∈ rest.map Prod.fst) with h1 | h1
      · exact absurd h1.symm h0
      · simp [lookupA, h0, ih h1]

/-- The internal consistency invariant of a `RoomManager` state: both maps
have distinct keys, member-key lists have distinct keys, every reverse-index
entry points to a live room that contains the socket, and every room
membership is backed by a reverse-index entry naming that room. -/
structure RMInv (s : RMState) : Prop where
  roomsNodup : keysNodup s.rooms
  usersNodup : ∀ rid room, lookupA s.rooms rid = some room → keysNodup room.users
  sockNodup : keysNodup s.userSockets
  entryToRoom : ∀ sid e, lookupA s.userSockets sid = some e →
    ∃ room, lookupA s.rooms e.roomId = some room ∧
      (lookupA room.users sid).isSome = true
  roomToEntry : ∀ sid rid room, lookupA s.rooms rid = some room →
    (lookupA room.users sid).isSome = true →
    ∃ e, lookupA s.userSockets sid = some e ∧ e.roomId = rid

/-- The claim's statement of reverse-index consistency: a socket has a
reverse-index entry iff exactly one live room has it as a member key, and
the entry names that room. -/
def reverseIndexConsistent (s : RMState) : Prop :=
  ∀ sid : String,
    (∀ e, lookupA s.userSockets sid = some e →
      (∃ room, lookupA s.rooms e.roomId = some room ∧
        (lookupA room.users sid).isSome = true) ∧
      (∀ rid room, lookupA s.rooms rid = some room →
        (lookupA room.users sid).isSome = true → rid = e.roomId)) ∧
    (lookupA s.userSockets sid = none →
      ∀ rid room, lookupA s.rooms rid = some room →
        (lookupA room.users sid).isSome = false)

theorem reverseIndexConsistent_of_RMInv (s : RMState) (h : RMInv s) :
    reverseIndexConsistent s := by
  intro sid
  constructor
  · intro e he
    refine ⟨h.entryToRoom sid e he, ?_⟩
    intro rid room hr hm
    obtain ⟨e2, he2, hrid⟩ := h.roomToEntry sid rid room hr hm
    rw [he] at he2
    cases he2
    exact hrid.symm
  · intro hnone rid room hr
    cases hm : (lookupA room.users sid).isSome with
    | false => rfl
    | true =>
      obtain ⟨e2, he2, -⟩ := h.roomToEntry sid rid room hr hm
      rw [hnone] at he2
      cases he2

theorem RMInv_cancel (s : RMState) (rid : String) (h : RMInv s) :
    RMInv (cancelRoomCleanup s rid) :=
  ⟨h.roomsNodup, h.usersNodup, h.sockNodup, h.entryToRoom, h.roomToEntry⟩

theorem lookupA_eraseFold (l : List (String × UserInfo))
    (us : List (String × SockEntry)) (sid : String) :
    lookupA (l.foldl (fun m kv => eraseA m kv.1) us) sid =
      if sid ∈ l.map Prod.fst then none else lookupA us sid := by
  induction l generalizing us with
  | nil => simp
  | cons kv rest ih =>
    obtain ⟨k0, w⟩ := kv
    rw [List.foldl_cons, ih]
    by_cases h0 : sid = k0
    · subst h0
      by_cases hmem : sid ∈ rest.map Prod.fst
      · simp [hmem]
      · simp [hmem, lookupA_eraseA_self]
    · by_cases hmem : sid ∈ rest.map Prod.fst
      · simp [hmem, h0]
      · simp [hmem, h0, lookupA_eraseA_ne _ _ _ h0]

theorem keysNodup_eraseFold (l : List (String × UserInfo))
    (us : List (String × SockEntry)) (h : keysNodup us) :
    keysNodup (l.foldl (fun m kv => eraseA m kv.1) us) := by
  induction l generalizing us with
  | nil => exact h
  | cons kv rest ih =>
    rw [List.foldl_cons]
    exact ih _ (keysNodup_eraseA _ _ h)

theorem RMInv_destroyRoom (s : RMState) (rid : String) (h : RMInv s) :
    RMInv (destroyRoom s rid) := by
  cases hr : lookupA s.rooms rid with
  | none => simpa [destroyRoom, hr] using h
  | some room =>
    simp only [destroyRoom, hr, cancelRoomCleanup]
    constructor
    · exact keysNodup_eraseA _ _ h.roomsNodup
    · intro rid' room' hr'
      by_cases he : rid' = rid
      · subst he
        rw [lookupA_eraseA_self] at hr'
        cases hr'
      · rw [lookupA_eraseA_ne _ _ _ he] at hr'
        exact h.usersNodup rid' room' hr'
    · exact keysNodup_eraseFold _ _ h.sockNodup
    · intro sid e he
      rw [lookupA_eraseFold] at he
      by_cases hmem : sid ∈ room.users.map Prod.fst
      · rw [if_pos hmem] at he
        cases he
      · rw [if_neg hmem] at he
        obtain ⟨room_e, hre, hmm⟩ := h.entryToRoom sid e he
        have hne : e.roomId ≠ rid := by
          intro heq
          rw [heq, hr] at hre
          cases hre
          exact hmem (mem_keys_of_lookupA_isSome _ _ hmm)
        refine ⟨room_e, ?_, hmm⟩
        rw [lookupA_eraseA_ne _ _ _ hne]
        exact hre
    · intro sid rid' room' hr' hm'
      by_cases he : rid' = rid
      · subst he
        rw [lookupA_eraseA_self] at hr'
        cases hr'
      · rw [lookupA_eraseA_ne _ _ _ he] at hr'
        obtain ⟨e, hse, hrid⟩ := h.roomToEntry sid rid' room' hr' hm'
        refine ⟨e, ?_, hrid⟩
        rw [lookupA_eraseFold]
        rw [if_neg ?_]
        · exact hse
        · intro hmem
          obtain ⟨e2, hse2, hrid2⟩ :=
            h.roomToEntry sid rid room hr (lookupA_isSome_of_mem_keys _ _ hmem)
          rw [hse] at hse2
          cases hse2
          exact he (hrid ▸ hrid2 ▸ rfl)

theorem RMInv_scheduleRoomCleanup (cfg : Config) (s : RMState) (rid : String)
    (h : RMInv s) : RMInv (scheduleRoomCleanup cfg s rid) := by
  unfold scheduleRoomCleanup
  by_cases hd : cfg.ROOM_CLEANUP_DELAY_MS ≤ 0
  · simp only [if_pos hd]
    exact RMInv_destroyRoom _ _ (RMInv_cancel _ _ h)
  · simp only [if_neg hd]
    have h1 := RMInv_cancel s rid h
    exact ⟨h1.roomsNodup, h1.usersNodup, h1.sockNodup, h1.entryToRoom, h1.roomToEntry⟩

theorem RMInv_remove_member (s : RMState) (roomId socketId : String) (room : Room)
    (h : RMInv s) (hr : lookupA s.rooms roomId = some room)
    (hm : (lookupA room.users socketId).isSome = true) :
    RMInv ⟨insertA s.rooms roomId
            ⟨room.id, eraseA room.users socketId, room.createdAt, room.messages⟩,
          eraseA s.userSockets socketId, s.cleanupTimers⟩ := by
  constructor
  · exact keysNodup_insertA _ _ _ h.roomsNodup
  · intro rid' room' hr'
    by_cases he : rid' = roomId
    · subst he
      rw [lookupA_insertA_self] at hr'
      cases hr'
      exact keysNodup_eraseA _ _ (h.usersNodup _ _ hr)
    · rw [lookupA_insertA_ne _ _ _ _ he] at hr'
      exact h.usersNodup rid' room' hr'
  · exact keysNodup_eraseA _ _ h.sockNodup
  · intro sid e he
    by_cases hs : sid = socketId
    · subst hs
      rw [lookupA_eraseA_self] at he
      cases he
    · rw [lookupA_eraseA_ne _ _ _ hs] at he
      obtain ⟨room_e, hre, hmm⟩ := h.entryToRoom sid e he
      by_cases heq : e.roomId = roomId
      · rw [heq, hr] at hre
        cases hre
        refine ⟨⟨room.id, eraseA room.users socketId, room.createdAt, room.messages⟩,
          ?_, ?_⟩
        · rw [heq, lookupA_insertA_self]
        · simpa [lookupA_eraseA_ne _ _ _ hs] using hmm
      · refine ⟨room_e, ?_, hmm⟩
        rw [lookupA_insertA_ne _ _ _ _ heq]
        exact hre
  · intro sid rid' room' hr' hm'
    by_cases he : rid' = roomId
    · subst he
      rw [lookupA_insertA_self] at hr'
      cases hr'
      have hs : sid ≠ socketId := by
        intro heq
        rw [heq] at hm'
        simp only [lookupA_eraseA_self] at hm'
        cases hm'
      rw [lookupA_eraseA_ne _ _ _ hs] at hm'
      obtain ⟨e, hse, hrid⟩ := h.roomToEntry sid rid' room hr hm'
      refine ⟨e, ?_, hrid⟩
      rw [lookupA_eraseA_ne _ _ _ hs]
      exact hse
    · rw [lookupA_insertA_ne _ _ _ _ he] at hr'
      obtain ⟨e, hse, hrid⟩ := h.roomToEntry sid rid' room' hr' hm'
      have hs : sid ≠ socketId := by
        intro heq
        subst heq
        obtain ⟨e2, hse2, hrid2⟩ := h.roomToEntry sid roomId room hr hm
        rw [hse] at hse2
        cases hse2
        rw [hrid2] at hrid
        exact he hrid.symm
      refine ⟨e, ?_, hrid⟩
      rw [lookupA_eraseA_ne _ _ _ hs]
      exact hse

theorem destroyRoom_userSockets_of_empty (s : RMState) (rid : String) (room : Room)
    (hr : lookupA s.rooms rid = some room) (he : room.users = []) :
    (destroyRoom s rid).userSockets = s.userSockets := by
  simp [destroyRoom, hr, he, cancelRoomCleanup]

theorem scheduleRoomCleanup_userSockets_of_empty (cfg : Config) (s : RMState)
    (rid : String) (room : Room) (hr : lookupA s.rooms rid = some room)
    (he : room.users = []) :
    (scheduleRoomCleanup cfg s rid).userSockets = s.userSockets := by
  unfold scheduleRoomCleanup
  by_cases hd : cfg.ROOM_CLEANUP_DELAY_MS ≤ 0
  · simp only [if_pos hd]
    exact destroyRoom_userSockets_of_empty _ _ room hr he
  · simp only [if_neg hd]
    rfl

theorem leaveRoom_userSockets_success (cfg : Config) (s : RMState)
    (roomId socketId : String) (room : Room) (u : UserInfo)
    (hr : lookupA s.rooms roomId = some room)
    (hm : lookupA room.users socketId = some u) :
    (leaveRoom cfg s roomId socketId).2.userSockets =
      eraseA s.userSockets socketId := by
  simp only [leaveRoom, hr, hm]
  by_cases hz : (eraseA room.users socketId).length = 0
  · simp only [if_pos hz]
    refine scheduleRoomCleanup_userSockets_of_empty cfg _ roomId
      ⟨room.id, eraseA room.users socketId, room.createdAt, room.messages⟩
      (lookupA_insertA_self _ _ _) ?_
    simpa using List.eq_nil_of_length_eq_zero hz
  · simp only [if_neg hz]

theorem RMInv_leaveRoom (cfg : Config) (s : RMState) (roomId socketId : String)
    (h : RMInv s) : RMInv (leaveRoom cfg s roomId socketId).2 := by
  cases hr : lookupA s.rooms roomId with
  | none => simpa [leaveRoom, hr] using h
  | some room =>
    cases hm : lookupA room.users socketId with
    | none => simpa [leaveRoom, hr, hm] using h
    | some u =>
      have h1 := RMInv_remove_member s roomId socketId room h hr (by simp [hm])
      simp only [leaveRoom, hr, hm]
      by_cases hz : (eraseA room.users socketId).length = 0
      · simp only [if_pos hz]
        exact RMInv_scheduleRoomCleanup cfg _ roomId h1
      · simp only [if_neg hz]
        exact h1

theorem RMInv_handleDisconnect (cfg : Config) (s : RMState) (socketId : String)
    (h : RMInv s) : RMInv (handleDisconnect cfg s socketId).2 := by
  cases hus : lookupA s.userSockets socketId with
  | none => simpa [handleDisconnect, hus] using h
  | some e =>
    have hlv := RMInv_leaveRoom cfg s e.roomId socketId h
    simp only [handleDisconnect, hus]
    cases hpair : leaveRoom cfg s e.roomId socketId with
    | mk removed s1 =>
      rw [hpair] at hlv
      cases removed <;> simpa using hlv

theorem RMInv_join_insert (s2 : RMState) (roomId socketId : String) (room : Room)
    (uid uname : String) (h2 : RMInv s2)
    (ha : lookupA s2.rooms roomId = some room)
    (hb : lookupA s2.userSockets socketId = none) :
    RMInv ⟨insertA s2.rooms roomId
            ⟨room.id, insertA room.users socketId ⟨uid, uname⟩, room.createdAt,
             room.messages⟩,
          insertA s2.userSockets socketId ⟨roomId, uid, uname⟩,
          s2.cleanupTimers⟩ := by
  constructor
  · exact keysNodup_insertA _ _ _ h2.roomsNodup
  · intro rid' room' hr'
    by_cases he : rid' = roomId
    · rw [he, lookupA_insertA_self] at hr'
      cases hr'
      exact keysNodup_insertA _ _ _ (h2.usersNodup _ _ ha)
    · rw [lookupA_insertA_ne _ _ _ _ he] at hr'
      exact h2.usersNodup _ _ hr'
  · exact keysNodup_insertA _ _ _ h2.sockNodup
  · intro sid e he
    by_cases hs : sid = socketId
    · rw [hs, lookupA_insertA_self] at he
      cases he
      refine ⟨⟨room.id, insertA room.users socketId ⟨uid, uname⟩, room.createdAt,
        room.messages⟩, lookupA_insertA_self _ _ _, ?_⟩
      rw [hs]
      rw [lookupA_insertA_self]
      rfl
    · rw [lookupA_insertA_ne _ _ _ _ hs] at he
      obtain ⟨room_e, hre, hmm⟩ := h2.entryToRoom sid e he
      by_cases heq : e.roomId = roomId
      · rw [heq, ha] at hre
        cases hre
        refine ⟨_, by rw [heq]; exact lookupA_insertA_self _ _ _, ?_⟩
        rw [lookupA_insertA_ne _ _ _ _ hs]
        exact hmm
      · refine ⟨room_e, ?_, hmm⟩
        rw [lookupA_insertA_ne _ _ _ _ heq]
        exact hre
  · intro sid rid' room' hr' hm'
    by_cases he : rid' = roomId
    · rw [he, lookupA_insertA_self] at hr'
      cases hr'
      by_cases hs : sid = socketId
      · refine ⟨⟨roomId, uid, uname⟩, ?_, he.symm⟩
        rw [hs, lookupA_insertA_self]
      · rw [lookupA_insertA_ne _ _ _ _ hs] at hm'
        obtain ⟨e, hse, hrid⟩ := h2.roomToEntry sid roomId room ha hm'
        refine ⟨e, ?_, by rw [he, hrid]⟩
        rw [lookupA_insertA_ne _ _ _ _ hs]
        exact hse
    · rw [lookupA_insertA_ne _ _ _ _ he] at hr'
      by_cases hs : sid = socketId
      · obtain ⟨e, hse, -⟩ := h2.roomToEntry sid rid' room' hr' hm'
        rw [hs, hb] at hse
        cases hse
      · obtain ⟨e, hse, hrid⟩ := h2.roomToEntry sid rid' room' hr' hm'
        refine ⟨e, ?_, hrid⟩
        rw [lookupA_insertA_ne _ _ _ _ hs]
        exact hse

theorem RMInv_joinRoom (cfg : Config) (s : RMState) (roomId socketId : String)
    (pn : Option String) (r : ℚ) (h : RMInv s) :
    RMInv (joinRoom cfg s roomId socketId pn r).2 := by
  cases hroom : lookupA s.rooms roomId with
  | none => simpa [joinRoom, hroom] using h
  | some room =>
    by_cases hcap : cfg.ROOM_MAX_USERS > 0 ∧ room.users.length ≥ cfg.ROOM_MAX_USERS
    · simpa [joinRoom, hroom, hcap] using h
    · have h1 : RMInv (cancelRoomCleanup s roomId) := RMInv_cancel _ _ h
      simp only [joinRoom, hroom, if_neg hcap]
      cases hmem : lookupA room.users socketId with
      | some ex =>
        cases hus : lookupA (cancelRoomCleanup s roomId).userSockets socketId with
        | none => exact h1
        | some e =>
          dsimp only
          by_cases hne : e.roomId ≠ roomId
          · rw [if_pos hne]
            exact RMInv_leaveRoom cfg _ e.roomId socketId h1
          · rw [if_neg hne]
            exact h1
      | none =>
        cases hus : lookupA (cancelRoomCleanup s roomId).userSockets socketId with
        | none =>
          exact RMInv_join_insert _ roomId socketId room _ _ h1 hroom hus
        | some e =>
          dsimp only
          by_cases hne : e.roomId ≠ roomId
          · rw [if_pos hne]
            have h2 := RMInv_leaveRoom cfg (cancelRoomCleanup s roomId) e.roomId
              socketId h1
            have ha : lookupA (leaveRoom cfg (cancelRoomCleanup s roomId) e.roomId
                socketId).2.rooms roomId = some room := by
              rw [leaveRoom_rooms_ne cfg _ _ _ _ (Ne.symm hne)]
              exact hroom
            have hb : lookupA (leaveRoom cfg (cancelRoomCleanup s roomId) e.roomId
                socketId).2.userSockets socketId = none := by
              obtain ⟨room_e, hre, hmm⟩ := h1.entryToRoom socketId e hus
              cases hmm' : lookupA room_e.users socketId with
              | none =>
                rw [hmm'] at hmm
                cases hmm
              | some u0 =>
                rw [leaveRoom_userSockets_success cfg _ e.roomId socketId room_e u0
                  hre hmm']
                exact lookupA_eraseA_self _ _
            exact RMInv_join_insert _ roomId socketId room _ _ h2 ha hb
          · exfalso
            have heq : e.roomId = roomId := not_not.mp hne
            obtain ⟨room_e, hre, hmm⟩ := h1.entryToRoom socketId e hus
            rw [cancelRoomCleanup_rooms, heq, hroom] at hre
            cases hre
            rw [hmem] at hmm
            cases hmm

theorem RMInv_updateUserName (cfg : Config) (s : RMState) (socketId newName : String)
    (h : RMInv s) : RMInv (updateUserName cfg s socketId newName).2 := by
  cases hsan : sanitizeUserName cfg (some newName) with
  | none => simpa [updateUserName, hsan] using h
  | some sn =>
    simp only [updateUserName, hsan]
    by_cases hempty : sn = ""
    · rw [if_pos hempty]
      exact h
    · rw [if_neg hempty]
      cases hus : lookupA s.userSockets socketId with
      | none => exact h
      | some e =>
        dsimp only
        cases hroom : lookupA s.rooms e.roomId with
        | none => exact h
        | some room =>
          dsimp only
          cases hru : lookupA room.users socketId with
          | none => exact h
          | some roomUser =>
            dsimp only
            constructor
            · exact keysNodup_insertA _ _ _ h.roomsNodup
            · intro rid' room' hr'
              by_cases he : rid' = e.roomId
              · rw [he, lookupA_insertA_self] at hr'
                cases hr'
                exact keysNodup_insertA _ _ _ (h.usersNodup _ _ hroom)
              · rw [lookupA_insertA_ne _ _ _ _ he] at hr'
                exact h.usersNodup _ _ hr'
            · exact keysNodup_insertA _ _ _ h.sockNodup
            · intro sid e2 he2
              by_cases hs : sid = socketId
              · rw [hs, lookupA_insertA_self] at he2
                cases he2
                refine ⟨⟨room.id, insertA room.users socketId ⟨roomUser.id, sn⟩,
                  room.createdAt, room.messages⟩, lookupA_insertA_self _ _ _, ?_⟩
                rw [hs, lookupA_insertA_self]
                rfl
              · rw [lookupA_insertA_ne _ _ _ _ hs] at he2
                obtain ⟨room_e2, hre2, hmm2⟩ := h.entryToRoom sid e2 he2
                by_cases heq : e2.roomId = e.roomId
                · rw [heq, hroom] at hre2
                  cases hre2
                  refine ⟨_, by rw [heq]; exact lookupA_insertA_self _ _ _, ?_⟩
                  rw [lookupA_insertA_ne _ _ _ _ hs]
                  exact hmm2
                · refine ⟨room_e2, ?_, hmm2⟩
                  rw [lookupA_insertA_ne _ _ _ _ heq]
                  exact hre2
            · intro sid rid' room' hr' hm'
              by_cases he' : rid' = e.roomId
              · rw [he', lookupA_insertA_self] at hr'
                cases hr'
                by_cases hs : sid = socketId
                · refine ⟨⟨e.roomId, e.id, sn⟩, ?_, he'.symm⟩
                  rw [hs, lookupA_insertA_self]
                · rw [lookupA_insertA_ne _ _ _ _ hs] at hm'
                  obtain ⟨f, hsf, hridf⟩ := h.roomToEntry sid e.roomId room hroom hm'
                  refine ⟨f, ?_, by rw [he', hridf]⟩
                  rw [lookupA_insertA_ne _ _ _ _ hs]
                  exact hsf
              · rw [lookupA_insertA_ne _ _ _ _ he'] at hr'
                by_cases hs : sid = socketId
                · obtain ⟨f, hsf, hridf⟩ := h.roomToEntry sid rid' room' hr' hm'
                  rw [hs, hus] at hsf
                  cases hsf
                  exact absurd hridf.symm he'
                · obtain ⟨f, hsf, hridf⟩ := h.roomToEntry sid rid' room' hr' hm'
                  refine ⟨f, ?_, hridf⟩
                  rw [lookupA_insertA_ne _ _ _ _ hs]
                  exact hsf

/-- C1: every mutating `RoomManager` operation (`joinRoom`, `leaveRoom`,
`handleDisconnect`, `destroyRoom`, `updateUserName`) preserves the internal
consistency invariant `RMInv`, and in every state satisfying it the reverse
index is consistent: a socket has a `userSockets` entry iff exactly one live
room has it as a member key, and the entry's `roomId` names that room. -/
theorem C1_reverse_index_consistency (cfg : Config) (s : RMState) (h : RMInv s) :
    (∀ roomId socketId pn r, RMInv (joinRoom cfg s roomId socketId pn r).2 ∧
      reverseIndexConsistent (joinRoom cfg s roomId socketId pn r).2) ∧
    (∀ roomId socketId, RMInv (leaveRoom cfg s roomId socketId).2 ∧
      reverseIndexConsistent (leaveRoom cfg s roomId socketId).2) ∧
    (∀ socketId, RMInv (handleDisconnect cfg s socketId).2 ∧
      reverseIndexConsistent (handleDisconnect cfg s socketId).2) ∧
    (∀ roomId, RMInv (destroyRoom s roomId) ∧
      reverseIndexConsistent (destroyRoom s roomId)) ∧
    (∀ socketId newName, RMInv (updateUserName cfg s socketId newName).2 ∧
      reverseIndexConsistent (updateUserName cfg s socketId newName).2) := by
  refine ⟨?_, ?_, ?_, ?_, ?_⟩
  · intro roomId socketId pn r
    have hi := RMInv_joinRoom cfg s roomId socketId pn r h
    exact ⟨hi, reverseIndexConsistent_of_RMInv _ hi⟩
  · intro roomId socketId
    have hi := RMInv_leaveRoom cfg s roomId socketId h
    exact ⟨hi, reverseIndexConsistent_of_RMInv _ hi⟩
  · intro socketId
    have hi := RMInv_handleDisconnect cfg s socketId h
    exact ⟨hi, reverseIndexConsistent_of_RMInv _ hi⟩
  · intro roomId
    have hi := RMInv_destroyRoom s roomId h
    exact ⟨hi, reverseIndexConsistent_of_RMInv _ hi⟩
  · intro socketId newName
    have hi := RMInv_updateUserName cfg s socketId newName h
    exact ⟨hi, reverseIndexConsistent_of_RMInv _ hi⟩

theorem RMInv_stateAlice : RMInv stateAlice := by
  constructor
  · exact (by decide : (stateAlice.rooms.map Prod.fst).Nodup)
  · intro rid room hr
    by_cases he : ("1234" : String) = rid
    · rw [show lookupA stateAlice.rooms rid = some ⟨"1234",
        [("sockAAAA", ⟨"user_sockAAAA", "Alice"⟩)], 0, []⟩ from by
          simp [stateAlice, lookupA, he]] at hr
      cases hr
      exact (by decide : ((([("sockAAAA",
        (⟨"user_sockAAAA", "Alice"⟩ : UserInfo))]) : List (String × UserInfo)).map
          Prod.fst).Nodup)
    · rw [show lookupA stateAlice.rooms rid = none from by
        simp [stateAlice, lookupA, he]] at hr
      cases hr
  · exact (by decide : (stateAlice.userSockets.map Prod.fst).Nodup)
  · intro sid e he
    by_cases hs : ("sockAAAA" : String) = sid
    · rw [show lookupA stateAlice.userSockets sid =
        some ⟨"1234", "user_sockAAAA", "Alice"⟩ from by
          simp [stateAlice, lookupA, hs]] at he
      cases he
      refine ⟨⟨"1234", [("sockAAAA", ⟨"user_sockAAAA", "Alice"⟩)], 0, []⟩,
        by decide, ?_⟩
      rw [← hs]
      decide
    · rw [show lookupA stateAlice.userSockets sid = none from by
        simp [stateAlice, lookupA, hs]] at he
      cases he
  · intro sid rid room hr hm
    by_cases he : ("1234" : String) = rid
    · rw [show lookupA stateAlice.rooms rid = some ⟨"1234",
        [("sockAAAA", ⟨"user_sockAAAA", "Alice"⟩)], 0, []⟩ from by
          simp [stateAlice, lookupA, he]] at hr
      cases hr
      by_cases hs : ("sockAAAA" : String) = sid
      · refine ⟨⟨"1234", "user_sockAAAA", "Alice"⟩, ?_, he⟩
        rw [← hs]
        decide
      · rw [show lookupA [("sockAAAA",
          (⟨"user_sockAAAA", "Alice"⟩ : UserInfo))] sid = none from by
            simp [lookupA, hs]] at hm
        cases hm
    · rw [show lookupA stateAlice.rooms rid = none from by
        simp [stateAlice, lookupA, he]] at hr
      cases hr

/-- Witness for C1 at the concrete one-room, one-member state: the
invariant holds there and is preserved (with reverse-index consistency) by
a join, a leave, a disconnect, a destroy and a rename. -/
theorem C1_reverse_index_consistency_witness :
    RMInv stateAlice ∧
    (RMInv (joinRoom defaultConfig stateAlice "1234" "sockB" none 0).2 ∧
      reverseIndexConsistent (joinRoom defaultConfig stateAlice "1234" "sockB" none 0).2) ∧
    (RMInv (leaveRoom defaultConfig stateAlice "1234" "sockAAAA").2 ∧
      reverseIndexConsistent (leaveRoom defaultConfig stateAlice "1234" "sockAAAA").2) ∧
    (RMInv (handleDisconnect defaultConfig stateAlice "sockAAAA").2 ∧
      reverseIndexConsistent (handleDisconnect defaultConfig stateAlice "sockAAAA").2) ∧
    (RMInv (destroyRoom stateAlice "1234") ∧
      reverseIndexConsistent (destroyRoom stateAlice "1234")) ∧
    (RMInv (updateUserName defaultConfig stateAlice "sockAAAA" "Bob").2 ∧
      reverseIndexConsistent (updateUserName defaultConfig stateAlice "sockAAAA" "Bob").2) := by
  have h := C1_reverse_index_consistency defaultConfig stateAlice RMInv_stateAlice
  exact ⟨RMInv_stateAlice, h.1 "1234" "sockB" none 0, h.2.1 "1234" "sockAAAA",
    h.2.2.1 "sockAAAA", h.2.2.2.1 "1234", h.2.2.2.2 "sockAAAA" "Bob"⟩

end Fourbyte
